import Mathlib

/-!
# Verification of the mysql-dump-splitter dump segmentation engine

Shallow embedding of the Go scanner in `main.go` (the cobra-based variant):
the header-capture loop, the body scan loop with boundary classification
(`/*!50001 DROP VIEW` / `DROP TABLE` / `LOCK TABLES`), backtick entity
extraction, the include/exclude/mode filter, and the output router
(single stream or per-entity files with append semantics).

Go strings are modelled as `List Char` (the dump markers are ASCII, so
byte indexing and char indexing coincide on the inputs handled here).
The file system is an association list from file name to content; gzip
wrapping is treated as a transparent stream transform (only the `.gz`
name suffix is modelled, matching the spec's "opaque stream transform"
scope note).  A nil `io.Writer` write and an out-of-bounds string slice
are modelled as explicit error values of `MErr`, since in Go they panic.
-/

/-- Go strings, modelled as lists of characters. -/
abbrev Str := List Char

/-- `strings.HasPrefix s p` from the Go standard library. -/
def startsWith : Str → Str → Bool
  | _, [] => true
  | [], _ :: _ => false
  | a :: u, b :: v => a == b && startsWith u v

/-- `strings.IndexByte s c`: index of the first occurrence of `c`, `-1` if absent. -/
def indexByte : Str → Char → Int
  | [], _ => -1
  | a :: u, c =>
    if a = c then 0
    else
      let r := indexByte u c
      if r = -1 then -1 else r + 1

/-- `strings.LastIndexByte s c`: index of the last occurrence of `c`, `-1` if absent. -/
def lastIndexByte : Str → Char → Int
  | [], _ => -1
  | a :: u, c =>
    let r := lastIndexByte u c
    if r ≠ -1 then r + 1 else if a = c then 0 else -1

/-- A Go string slice expression `s[low:high]`: `none` models the runtime
bounds-check panic when `0 ≤ low ≤ high ≤ len s` fails. -/
def goSlice (s : Str) (low high : Int) : Option Str :=
  if 0 ≤ low ∧ low ≤ high ∧ high ≤ (s.length : Int) then
    some ((s.drop low.toNat).take (high - low).toNat)
  else none

/-- Association-list lookup for the modelled file system. -/
def fsLookup : List (Str × Str) → Str → Option Str
  | [], _ => none
  | (k, v) :: rest, n => if k = n then some v else fsLookup rest n

/-- Association-list update (replace, or append a fresh entry). -/
def fsSet : List (Str × Str) → Str → Str → List (Str × Str)
  | [], n, v => [(n, v)]
  | (k, w) :: rest, n, v => if k = n then (n, v) :: rest else (k, w) :: fsSet rest n v

/-- Lines joined with the CRLF terminator `writeLine` appends. -/
def joinCRLF : List Str → Str
  | [] => []
  | l :: rest => l ++ '\r' :: '\n' :: joinCRLF rest

/-- Lines joined with the bare LF terminator `fmt.Fprintln` appends. -/
def joinLF : List Str → Str
  | [] => []
  | l :: rest => l ++ '\n' :: joinLF rest

/-- The marker opening a view segment. -/
def viewMark : Str := "/*!50001 DROP VIEW".toList

/-- The marker opening a schema segment. -/
def dropMark : Str := "DROP TABLE".toList

/-- The marker opening a data segment. -/
def lockMark : Str := "LOCK TABLES".toList

/-- The directive-comment marker starting a header line. -/
def headerMark : Str := "/*!".toList

/-- The line-comment marker. -/
def commentMark : Str := "--".toList

/-- Segment type tag `"view"`. -/
def viewT : Str := "view".toList

/-- Segment type tag `"schema"`. -/
def schemaT : Str := "schema".toList

/-- Segment type tag `"data"`. -/
def dataT : Str := "data".toList

/-- The `.sql` file name suffix. -/
def sqlExt : Str := ".sql".toList

/-- The `.gz` file name suffix appended when compression is on. -/
def gzExt : Str := ".gz".toList

/-- The stdout sentinel `-`. -/
def dashName : Str := "-".toList

/-- The path `/dev/stdout` substituted for the sentinel. -/
def stdoutName : Str := "/dev/stdout".toList

/-- `filepath.Join` on the two-component paths the scanner builds. -/
def joinPath (a b : Str) : Str := a ++ '/' :: b

/-- The scanner configuration `s.cfg`.  Go's nil slices are modelled as `[]`
(the CLI leaves a list flag nil unless it is supplied).  The Go field
`include` is renamed `includeT` because `include` is a Lean keyword. -/
structure Cfg where
  outdir : Str
  outfile : Str
  includeT : List Str
  exclude : List Str
  excludeData : List Str
  verbose : Bool
  mode : Str
  compress : Bool
deriving DecidableEq, Repr

/-- Modelled runtime faults: `fmt.Fprint` on a nil `io.Writer`, and the
string-slice bounds panic in `scanTableName`. -/
inductive MErr where
  | nilWrite
  | slicePanic
deriving DecidableEq, Repr

/-- The mutable `Scanner` state.  `fs` is the modelled file system, `out`
names the currently open destination (`none` = nil writer). -/
structure State where
  cfg : Cfg
  count : Nat
  line : Str
  created : List Str
  fs : List (Str × Str)
  out : Option Str
  skip : Bool
  table : Str
  ignore : Bool
  typ : Str
  headers : Str
deriving DecidableEq, Repr

/-- The zero-valued scanner handed to `run`, holding the parsed flags. -/
def initState (cfg : Cfg) : State :=
  { cfg := cfg, count := 0, line := [], created := [], fs := [], out := none,
    skip := false, table := [], ignore := false, typ := [], headers := [] }

/-- The filter decision assigned to `s.ignore` in `scanTableName`, as a pure
function of segment type, entity and policy. -/
def ignoreDecision (typ table : Str) (cfg : Cfg) : Bool :=
  (!cfg.includeT.isEmpty && !cfg.includeT.contains table) || cfg.exclude.contains table ||
  (typ == dataT && cfg.mode == schemaT) ||
  (typ == schemaT && cfg.mode == dataT) ||
  (typ == dataT && cfg.excludeData.contains table)

/-- The entity extraction in `scanTableName`:
`s.line[strings.IndexByte(s.line, '\x60')+1 : strings.LastIndexByte(s.line, '\x60')]`. -/
def extractEntity (l : Str) : Option Str :=
  goSlice l (indexByte l '`' + 1) (lastIndexByte l '`')

/-- `isViewStart`: prefix test for a view boundary. -/
def isViewStart (l : Str) : Bool := startsWith l viewMark

/-- `isSchemaStart`: prefix test for a schema boundary. -/
def isSchemaStart (l : Str) : Bool := startsWith l dropMark

/-- `isDataStart`: prefix test for a data boundary. -/
def isDataStart (l : Str) : Bool := startsWith l lockMark

/-- The short-circuit disjunction `s.isViewStart() || s.isSchemaStart() ||
s.isDataStart()` together with the `s.typ` assignment each test performs on
success: returns whether the line is a boundary, and the resulting `typ`. -/
def boundaryCheck (typ l : Str) : Bool × Str :=
  if isViewStart l then (true, viewT)
  else if isSchemaStart l then (true, schemaT)
  else if isDataStart l then (true, dataT)
  else (false, typ)

/-- Whether a line matches any of the three boundary markers. -/
def isBoundaryLine (l : Str) : Bool := isViewStart l || isSchemaStart l || isDataStart l

/-- The `-` to `/dev/stdout` substitution `create` performs in single-stream mode. -/
def resolvedOutfile (cfg : Cfg) : Str :=
  if cfg.outfile = dashName then stdoutName else cfg.outfile

/-- `create(fName)`.  Single-stream mode: no-op once open, otherwise open the
stream and `Fprintln` the header block.  Per-entity mode: close the previous
handle, add the compression suffix, join with `outdir`; a name in `created`
is reopened in append mode, a fresh name is created (truncated) and receives
the header block.  `os` errors are abstracted as success; `Fprintln(w, x)`
writes `x ++ "\n"`. -/
def createOp (s : State) (fName : Str) : State :=
  if s.cfg.outfile ≠ [] then
    if s.out.isSome then s
    else
      let cfg := { s.cfg with outfile := resolvedOutfile s.cfg }
      { s with cfg := cfg,
               fs := fsSet s.fs cfg.outfile (s.headers ++ ['\n']),
               out := some cfg.outfile }
  else
    let fName := if s.cfg.compress then fName ++ gzExt else fName
    let fName := joinPath s.cfg.outdir fName
    if s.created.contains fName then { s with out := some fName }
    else
      { s with created := fName :: s.created,
               fs := fsSet s.fs fName (s.headers ++ ['\n']),
               out := some fName }

/-- `writeLine`: `fmt.Fprint(s.out, s.line, "\r\n")`.  A nil writer panics. -/
def writeLineOp (s : State) : Except MErr State :=
  match s.out with
  | none => .error .nilWrite
  | some f =>
    .ok { s with fs := fsSet s.fs f (((fsLookup s.fs f).getD []) ++ s.line ++ ['\r', '\n']) }

/-- One iteration of the body loop in `start` for the line `l` already
returned by `Next`: the redundant blank/comment check, the boundary
classification with its `typ` assignment, `scanTableName`, the ignored
`continue`, `create`, and the guarded `writeLine`. -/
def bodyStep (s0 : State) (l : Str) : Except MErr State :=
  let s := { s0 with line := l }
  if l.isEmpty || startsWith l commentMark then .ok s
  else
    let bc := boundaryCheck s.typ l
    let s := { s with typ := bc.2 }
    if bc.1 then
      match extractEntity l with
      | none => .error .slicePanic
      | some t =>
        let s := { s with table := t, ignore := ignoreDecision bc.2 t s.cfg }
        if s.ignore then .ok s
        else
          let s := createOp s (t ++ sqlExt)
          if s.ignore then .ok s else writeLineOp s
    else
      if s.ignore then .ok s else writeLineOp s

/-- The header-capture loop at the top of `start`: `Next` (which counts every
scanned line and skips blank and `--` lines) followed by the `/*!` test;
a non-matching significant line sets `skip` and breaks.  Returns the state
and the unconsumed input. -/
def headerLoop : State → List Str → State × List Str
  | s, [] => (s, [])
  | s, l :: rest =>
    let s := { s with count := s.count + 1, line := l }
    if l.isEmpty || startsWith l commentMark then headerLoop s rest
    else if startsWith l headerMark then
      headerLoop { s with headers := s.headers ++ l ++ ['\n'] } rest
    else ({ s with skip := true }, rest)

/-- The body loop of `start` over the remaining raw lines: each `Scan`
increments `count` and sets the line, then the loop body runs. -/
def bodyLoop : State → List Str → Except MErr State
  | s, [] => .ok s
  | s, l :: rest =>
    match bodyStep { s with count := s.count + 1 } l with
    | .error e => .error e
    | .ok s' => bodyLoop s' rest

/-- The read-side error carried by `bufio.Scanner.Err()` (e.g. the
`ErrTooLong` oversized-line failure), left abstract. -/
abbrev ReadErr := Str

/-- The body phase of `start`: the first `Next` consumes the `skip` pushback
(re-evaluating the already-read line without scanning), then the loop
continues over the unconsumed input. -/
def bodyPhase (s : State) (input : List Str) : Except MErr State :=
  if s.skip then
    match bodyStep { s with skip := false } s.line with
    | .error e => .error e
    | .ok s' => bodyLoop s' input
  else bodyLoop s input

/-- `start` on an input stream that yields `lines` and then reports `rerr`
from `rdr.Err()`: header capture, body scan, the final `outClose`, and the
`At line %d` annotation built from `s.count+1`. -/
def runM (cfg : Cfg) (lines : List Str) (rerr : Option ReadErr) :
    Except MErr (State × Option (Nat × ReadErr)) :=
  let p := headerLoop (initState cfg) lines
  match bodyPhase p.1 p.2 with
  | .error e => .error e
  | .ok s2 =>
    let s3 := if s2.out.isSome then { s2 with out := none } else s2
    .ok (s3, rerr.map fun e => (s3.count + 1, e))

/-- The significant-line test of `Next`: not blank, not a `--` comment. -/
def sigLine (l : Str) : Bool := !(l.isEmpty || startsWith l commentMark)

/-- Derived declarative description of the body lines the loop writes: thread
the `(typ, table, ignore)` triple through the lines exactly as the loop's
classifier and filter do, and keep each line written while not ignored. -/
def keptBodyLines : Cfg → Str → Str → Bool → List Str → List Str
  | _, _, _, _, [] => []
  | cfg, typ, table, ign, l :: rest =>
    if l.isEmpty || startsWith l commentMark then keptBodyLines cfg typ table ign rest
    else
      let bc := boundaryCheck typ l
      if bc.1 then
        match extractEntity l with
        | none => []
        | some t =>
          let ig := ignoreDecision bc.2 t cfg
          (if ig then [] else [l]) ++ keptBodyLines cfg bc.2 t ig rest
      else
        (if ign then [] else [l]) ++ keptBodyLines cfg typ table ign rest

/-- `true` when every LF in the string is immediately preceded by a CR:
the check that all line terminators in an output are CRLF. -/
def crlfOnly : Str → Bool
  | [] => true
  | '\r' :: '\n' :: rest => crlfOnly rest
  | '\n' :: _ => false
  | _ :: rest => crlfOnly rest

/-! ## Auxiliary definitions used by the statements -/

/-- The full per-entity file name `create` builds: optional `.gz` suffix,
then joined under `outdir`. -/
def fullName (s : State) (f : Str) : Str :=
  joinPath s.cfg.outdir (if s.cfg.compress then f ++ gzExt else f)

/-- The state fields a successful body-loop step never changes: the captured
header block, the pushback flag, and the whole configuration except that
`create` may rewrite the `-` outfile sentinel (which preserves whether
single-stream mode is active). -/
def presEq (s' s : State) : Prop :=
  s'.headers = s.headers ∧ s'.skip = s.skip ∧
  s'.cfg.includeT = s.cfg.includeT ∧ s'.cfg.exclude = s.cfg.exclude ∧
  s'.cfg.excludeData = s.cfg.excludeData ∧ s'.cfg.mode = s.cfg.mode ∧
  s'.cfg.compress = s.cfg.compress ∧ s'.cfg.outdir = s.cfg.outdir ∧
  (s'.cfg.outfile = [] ↔ s.cfg.outfile = [])

/-- The header-capture phase of `start` applied to the fresh scanner. -/
def headerPhase (cfg : Cfg) (lines : List Str) : State × List Str :=
  headerLoop (initState cfg) lines

/-- The raw lines the body loop will examine after header capture: the
pushback line (when `skip` was set) followed by the unconsumed input. -/
def bodyFeed (cfg : Cfg) (lines : List Str) : List Str :=
  (if (headerPhase cfg lines).1.skip then [(headerPhase cfg lines).1.line] else []) ++
    (headerPhase cfg lines).2

/-- A typical schema-boundary dump line for entity `t`. -/
def dropLine (t : Str) : Str := dropMark ++ ' ' :: '`' :: (t ++ ['`', ';'])

/-- A typical data-boundary dump line for entity `t`. -/
def lockLine (t : Str) : Str := lockMark ++ ' ' :: '`' :: (t ++ '`' :: " WRITE;".toList)

/-- A per-entity-mode configuration over directory `d`, with an empty filter
policy and no compression. -/
def dirCfg (d : Str) : Cfg :=
  { outdir := d, outfile := [], includeT := [], exclude := [], excludeData := [],
    verbose := false, mode := "both".toList, compress := false }

/-- A single-stream configuration writing to `out.sql`, with an empty filter
policy and no compression. -/
def singleCfg : Cfg :=
  { outdir := [], outfile := "out.sql".toList, includeT := [], exclude := [],
    excludeData := [], verbose := false, mode := "both".toList, compress := false }

/-! ## Basic string lemmas -/

theorem startsWith_append_self (p r : Str) : startsWith (p ++ r) p = true := by
  induction p with
  | nil => simp [startsWith]
  | cons a u ih => simp [startsWith, ih]

theorem startsWith_cons_ex {l : Str} {b : Char} {v : Str} (h : startsWith l (b :: v) = true) :
    ∃ u, l = b :: u ∧ startsWith u v = true := by
  cases l with
  | nil => simp [startsWith] at h
  | cons a u =>
    simp [startsWith] at h
    exact ⟨u, by simp [h.1], h.2⟩

theorem sigLine_cons {a : Char} (u : Str) (h : a ≠ '-') : sigLine (a :: u) = true := by
  simp [sigLine, commentMark, startsWith, h]

/-! ## Index and slice lemmas for entity extraction -/

theorem indexByte_neg_of_notMem {l : Str} {c : Char} (h : c ∉ l) : indexByte l c = -1 := by
  induction l with
  | nil => rfl
  | cons a u ih =>
    rw [List.mem_cons, not_or] at h
    have ha : ¬ a = c := fun e => h.1 e.symm
    simp [indexByte, ha, ih h.2]

theorem lastIndexByte_neg_of_notMem {l : Str} {c : Char} (h : c ∉ l) :
    lastIndexByte l c = -1 := by
  induction l with
  | nil => rfl
  | cons a u ih =>
    rw [List.mem_cons, not_or] at h
    have ha : ¬ a = c := fun e => h.1 e.symm
    simp [lastIndexByte, ha, ih h.2]

theorem indexByte_first {pre rest : Str} {c : Char} (h : c ∉ pre) :
    indexByte (pre ++ c :: rest) c = pre.length := by
  induction pre with
  | nil => simp [indexByte]
  | cons a u ih =>
    rw [List.mem_cons, not_or] at h
    have ha : ¬ a = c := fun e => h.1 e.symm
    have hr := ih h.2
    simp only [List.cons_append, indexByte, List.append_eq, if_neg ha]
    rw [hr, if_neg (by omega)]
    simp only [List.length_cons]
    omega

theorem lastIndexByte_last {ys post : Str} {c : Char} (h : c ∉ post) :
    lastIndexByte (ys ++ c :: post) c = ys.length := by
  induction ys with
  | nil =>
    have hr := lastIndexByte_neg_of_notMem h
    simp [lastIndexByte, hr]
  | cons a u ih =>
    simp only [List.cons_append, lastIndexByte, List.append_eq]
    rw [ih, if_pos (by omega)]
    simp only [List.length_cons]
    omega

theorem exists_first_split {l : Str} {c : Char} (h : c ∈ l) :
    ∃ pre rest, l = pre ++ c :: rest ∧ c ∉ pre := by
  induction l with
  | nil => cases h
  | cons a u ih =>
    by_cases hac : c = a
    · exact ⟨[], u, by simp [hac], by simp⟩
    · have hu : c ∈ u := by
        rcases List.mem_cons.1 h with h1 | h2
        · exact absurd h1 hac
        · exact h2
      obtain ⟨pre, rest, heq, hpre⟩ := ih hu
      exact ⟨a :: pre, rest, by simp [heq], by simp [List.mem_cons, hac, hpre]⟩

theorem exists_last_split {l : Str} {c : Char} (h : c ∈ l) :
    ∃ pre post, l = pre ++ c :: post ∧ c ∉ post := by
  induction l with
  | nil => cases h
  | cons a u ih =>
    by_cases hu : c ∈ u
    · obtain ⟨pre, post, heq, hpost⟩ := ih hu
      exact ⟨a :: pre, post, by simp [heq], hpost⟩
    · have hca : c = a := by
        rcases List.mem_cons.1 h with h1 | h2
        · exact h1
        · exact absurd h2 hu
      exact ⟨[], u, by simp [hca], hu⟩

theorem extractEntity_decomp {pre mid post : Str} (hpre : '`' ∉ pre) (hpost : '`' ∉ post) :
    extractEntity (pre ++ '`' :: (mid ++ '`' :: post)) = some mid := by
  have hfirst : indexByte (pre ++ '`' :: (mid ++ '`' :: post)) '`' = pre.length :=
    indexByte_first hpre
  have hshape : pre ++ '`' :: (mid ++ '`' :: post) = (pre ++ '`' :: mid) ++ '`' :: post := by
    simp
  have hlast : lastIndexByte (pre ++ '`' :: (mid ++ '`' :: post)) '`' =
      (pre ++ '`' :: mid).length := by
    rw [hshape]; exact lastIndexByte_last hpost
  unfold extractEntity goSlice
  rw [hfirst, hlast]
  have hlen : ((pre ++ '`' :: mid).length : Int) = pre.length + 1 + mid.length := by
    simp; omega
  have hL : ((pre ++ '`' :: (mid ++ '`' :: post)).length : Int) =
      pre.length + 1 + mid.length + 1 + post.length := by
    simp; omega
  rw [if_pos ⟨by omega, by rw [hlen]; omega, by rw [hlen, hL]; omega⟩]
  have hlow : ((pre.length : Int) + 1).toNat = pre.length + 1 := by omega
  have hdiff : ((pre ++ '`' :: mid).length - ((pre.length : Int) + 1)).toNat = mid.length := by
    rw [hlen]; omega
  rw [hlow, hdiff]
  have hshape2 : pre ++ '`' :: (mid ++ '`' :: post) = (pre ++ ['`']) ++ (mid ++ '`' :: post) := by
    simp
  rw [hshape2, List.drop_left' (by simp), List.take_left' rfl]

/-! ## Claim C8: entity extraction bounds -/

/-- **C8.** For every boundary line containing at least two backticks, entity
extraction is in-bounds and returns the substring strictly between the first
and the last backtick of the line; for a line with fewer than two backticks
the unguarded slice has invalid bounds, modelled as the `none` panic. -/
theorem c8_entity_extraction (l : Str) :
    (2 ≤ l.count '`' →
      ∃ pre mid post, l = pre ++ '`' :: (mid ++ '`' :: post) ∧
        '`' ∉ pre ∧ '`' ∉ post ∧ extractEntity l = some mid) ∧
    (l.count '`' < 2 → extractEntity l = none) := by
  constructor
  · intro h2
    have hm : '`' ∈ l := List.count_pos_iff.1 (by omega)
    obtain ⟨pre, rest, rfl, hpre⟩ := exists_first_split hm
    have hc0 : pre.count '`' = 0 := List.count_eq_zero.2 hpre
    have hcr : 1 ≤ rest.count '`' := by
      rw [List.count_append, hc0, List.count_cons_self] at h2
      omega
    have hmr : '`' ∈ rest := List.count_pos_iff.1 (by omega)
    obtain ⟨mid, post, rfl, hpost⟩ := exists_last_split hmr
    exact ⟨pre, mid, post, rfl, hpre, hpost, extractEntity_decomp hpre hpost⟩
  · intro hlt
    have h01 : l.count '`' = 0 ∨ l.count '`' = 1 := by omega
    rcases h01 with hc | hc
    · have hnm : '`' ∉ l := List.count_eq_zero.1 hc
      unfold extractEntity goSlice
      rw [indexByte_neg_of_notMem hnm, lastIndexByte_neg_of_notMem hnm]
      rw [if_neg (by omega)]
    · have hm : '`' ∈ l := List.count_pos_iff.1 (by omega)
      obtain ⟨pre, rest, rfl, hpre⟩ := exists_first_split hm
      have hc0 : pre.count '`' = 0 := List.count_eq_zero.2 hpre
      have hrest : '`' ∉ rest := by
        rw [List.count_append, hc0, List.count_cons_self] at hc
        exact List.count_eq_zero.1 (by omega)
      unfold extractEntity goSlice
      rw [indexByte_first hpre, lastIndexByte_last hrest]
      rw [if_neg (by omega)]

/-- Witness for C8: the fewer-than-two-backticks side at the concrete line
`LOCK TABLES broken`, which has a single backtick. -/
theorem c8_entity_extraction_witness :
    extractEntity "LOCK TABLES `broken".toList = none :=
  (c8_entity_extraction "LOCK TABLES `broken".toList).2 (by decide)

/-! ## Header-capture loop lemmas -/

theorem sig_of_cond {l : Str} (h : (List.isEmpty l || startsWith l commentMark) = false) :
    sigLine l = true := by
  simp [sigLine, h]

theorem notSig_of_cond {l : Str} (h : (List.isEmpty l || startsWith l commentMark) = true) :
    sigLine l = false := by
  simp [sigLine, h]

theorem headerLoop_cons_insig {l : Str} (rest : List Str) (s : State)
    (h : (List.isEmpty l || startsWith l commentMark) = true) :
    headerLoop s (l :: rest) = headerLoop { s with count := s.count + 1, line := l } rest := by
  simp [headerLoop, h]

theorem headerLoop_cons_header {l : Str} (rest : List Str) (s : State)
    (hc : (List.isEmpty l || startsWith l commentMark) = false)
    (hh : startsWith l headerMark = true) :
    headerLoop s (l :: rest) =
      headerLoop { s with count := s.count + 1, line := l,
                          headers := s.headers ++ l ++ ['\n'] } rest := by
  simp [headerLoop, hc, hh]

theorem headerLoop_cons_break {l : Str} (rest : List Str) (s : State)
    (hc : (List.isEmpty l || startsWith l commentMark) = false)
    (hh : startsWith l headerMark = false) :
    headerLoop s (l :: rest) = ({ s with count := s.count + 1, line := l, skip := true }, rest) := by
  simp [headerLoop, hc, hh]

theorem headerLoop_inv (lines : List Str) : ∀ s : State,
    (headerLoop s lines).1.cfg = s.cfg ∧ (headerLoop s lines).1.created = s.created ∧
    (headerLoop s lines).1.fs = s.fs ∧ (headerLoop s lines).1.out = s.out ∧
    (headerLoop s lines).1.table = s.table ∧ (headerLoop s lines).1.ignore = s.ignore ∧
    (headerLoop s lines).1.typ = s.typ := by
  induction lines with
  | nil => intro s; simp [headerLoop]
  | cons l rest ih =>
    intro s
    cases hc : (List.isEmpty l || startsWith l commentMark) with
    | true => rw [headerLoop_cons_insig rest s hc]; exact ih _
    | false =>
      cases hh : startsWith l headerMark with
      | true => rw [headerLoop_cons_header rest s hc hh]; exact ih _
      | false => rw [headerLoop_cons_break rest s hc hh]; simp

theorem headerLoop_count (lines : List Str) : ∀ s : State,
    (headerLoop s lines).1.count + (headerLoop s lines).2.length = s.count + lines.length := by
  induction lines with
  | nil => intro s; simp [headerLoop]
  | cons l rest ih =>
    intro s
    cases hc : (List.isEmpty l || startsWith l commentMark) with
    | true => rw [headerLoop_cons_insig rest s hc, ih]; simp; omega
    | false =>
      cases hh : startsWith l headerMark with
      | true => rw [headerLoop_cons_header rest s hc hh, ih]; simp; omega
      | false => rw [headerLoop_cons_break rest s hc hh]; simp; omega

theorem headerLoop_headers (lines : List Str) : ∀ s : State,
    (headerLoop s lines).1.headers =
      s.headers ++ joinLF ((lines.filter sigLine).takeWhile (fun l => startsWith l headerMark)) := by
  induction lines with
  | nil => intro s; simp [headerLoop, joinLF]
  | cons l rest ih =>
    intro s
    cases hc : (List.isEmpty l || startsWith l commentMark) with
    | true =>
      rw [headerLoop_cons_insig rest s hc, ih]
      simp [List.filter_cons, notSig_of_cond hc]
    | false =>
      cases hh : startsWith l headerMark with
      | true =>
        rw [headerLoop_cons_header rest s hc hh, ih]
        simp [List.filter_cons, sig_of_cond hc, List.takeWhile_cons, hh, joinLF,
          List.append_assoc]
      | false =>
        rw [headerLoop_cons_break rest s hc hh]
        simp [List.filter_cons, sig_of_cond hc, List.takeWhile_cons, hh, joinLF]

theorem headerLoop_feed (lines : List Str) : ∀ s : State, s.skip = false →
    ((if (headerLoop s lines).1.skip then [(headerLoop s lines).1.line] else [])
        ++ (headerLoop s lines).2).filter sigLine
      = (lines.filter sigLine).dropWhile (fun l => startsWith l headerMark) := by
  induction lines with
  | nil => intro s hs; simp [headerLoop, hs]
  | cons l rest ih =>
    intro s hs
    cases hc : (List.isEmpty l || startsWith l commentMark) with
    | true =>
      rw [headerLoop_cons_insig rest s hc, ih]
      · simp [List.filter_cons, notSig_of_cond hc]
      · exact hs
    | false =>
      cases hh : startsWith l headerMark with
      | true =>
        rw [headerLoop_cons_header rest s hc hh, ih]
        · simp [List.filter_cons, sig_of_cond hc, List.dropWhile_cons, hh]
        · exact hs
      | false =>
        rw [headerLoop_cons_break rest s hc hh]
        simp [List.filter_cons, sig_of_cond hc, List.dropWhile_cons, hh]

theorem headerLoop_skip (lines : List Str) : ∀ s : State, s.skip = false →
    (headerLoop s lines).1.skip = true →
    sigLine (headerLoop s lines).1.line = true ∧
      startsWith (headerLoop s lines).1.line headerMark = false := by
  induction lines with
  | nil => intro s hs h; rw [headerLoop] at h; simp at h; rw [h] at hs; cases hs
  | cons l rest ih =>
    intro s hs
    cases hc : (List.isEmpty l || startsWith l commentMark) with
    | true => rw [headerLoop_cons_insig rest s hc]; exact ih _ hs
    | false =>
      cases hh : startsWith l headerMark with
      | true => rw [headerLoop_cons_header rest s hc hh]; exact ih _ hs
      | false =>
        rw [headerLoop_cons_break rest s hc hh]
        intro _
        exact ⟨sig_of_cond hc, hh⟩

/-! ## File-system and router lemmas -/

theorem fsLookup_fsSet_self (fs : List (Str × Str)) (k v : Str) :
    fsLookup (fsSet fs k v) k = some v := by
  induction fs with
  | nil => simp [fsSet, fsLookup]
  | cons p rest ih =>
    obtain ⟨a, b⟩ := p
    by_cases h : a = k
    · simp [fsSet, fsLookup, h]
    · simp [fsSet, fsLookup, h, ih]

theorem fsSet_fsSet_self (fs : List (Str × Str)) (k v w : Str) :
    fsSet (fsSet fs k v) k w = fsSet fs k w := by
  induction fs with
  | nil => simp [fsSet]
  | cons p rest ih =>
    obtain ⟨a, b⟩ := p
    by_cases h : a = k
    · simp [fsSet, h]
    · simp [fsSet, h, ih]

theorem fsLookup_fsSet_ne (fs : List (Str × Str)) {k n : Str} (v : Str) (h : ¬ k = n) :
    fsLookup (fsSet fs k v) n = fsLookup fs n := by
  induction fs with
  | nil => simp [fsSet, fsLookup, h]
  | cons p rest ih =>
    obtain ⟨a, b⟩ := p
    by_cases ha : a = k
    · simp [fsSet, fsLookup, ha, h]
    · by_cases hn : a = n
      · have hnk : ¬ n = k := by rw [← hn]; exact ha
        simp [fsSet, fsLookup, ha, hn, hnk]
      · simp [fsSet, fsLookup, ha, hn, ih]

theorem createOp_single_noop {s : State} (f : Str) (h1 : s.cfg.outfile ≠ [])
    (h2 : s.out.isSome = true) : createOp s f = s := by
  simp [createOp, h1, h2]

theorem createOp_single_open {s : State} (f : Str) (h1 : s.cfg.outfile ≠ [])
    (h2 : s.out = none) :
    createOp s f = { s with cfg := { s.cfg with outfile := resolvedOutfile s.cfg },
                            fs := fsSet s.fs (resolvedOutfile s.cfg) (s.headers ++ ['\n']),
                            out := some (resolvedOutfile s.cfg) } := by
  simp [createOp, h1, h2]

theorem createOp_dir_fresh {s : State} (f : Str) (h1 : s.cfg.outfile = [])
    (h2 : s.created.contains (fullName s f) = false) :
    createOp s f = { s with created := fullName s f :: s.created,
                            fs := fsSet s.fs (fullName s f) (s.headers ++ ['\n']),
                            out := some (fullName s f) } := by
  simp [createOp, h1, fullName] at h2 ⊢
  simp [h2]

theorem createOp_dir_append {s : State} (f : Str) (h1 : s.cfg.outfile = [])
    (h2 : s.created.contains (fullName s f) = true) :
    createOp s f = { s with out := some (fullName s f) } := by
  simp [createOp, h1, fullName] at h2 ⊢
  simp [h2]

theorem createOp_ignore (s : State) (f : Str) : (createOp s f).ignore = s.ignore := by
  by_cases h1 : s.cfg.outfile = []
  · cases h2 : s.created.contains (fullName s f)
    · rw [createOp_dir_fresh f h1 h2]
    · rw [createOp_dir_append f h1 h2]
  · cases h2 : s.out with
    | none => rw [createOp_single_open f h1 h2]
    | some v => rw [createOp_single_noop f h1 (by simp [h2])]

theorem writeLineOp_some {s : State} {f : Str} (h : s.out = some f) :
    writeLineOp s =
      .ok { s with fs := fsSet s.fs f ((fsLookup s.fs f).getD [] ++ s.line ++ ['\r', '\n']) } := by
  simp [writeLineOp, h]

theorem writeLineOp_none {s : State} (h : s.out = none) :
    writeLineOp s = .error .nilWrite := by
  simp [writeLineOp, h]

/-! ## Classifier lemmas -/

theorem boundaryCheck_fst (typ l : Str) : (boundaryCheck typ l).1 = isBoundaryLine l := by
  unfold boundaryCheck isBoundaryLine
  split_ifs with h1 h2 h3
  · simp [h1]
  · simp [h2]
  · simp [h3]
  · simp only [Bool.not_eq_true] at h1 h2 h3
    simp [h1, h2, h3]

theorem boundaryCheck_not {l : Str} (typ : Str) (h : isBoundaryLine l = false) :
    boundaryCheck typ l = (false, typ) := by
  simp [isBoundaryLine] at h
  obtain ⟨⟨h1, h2⟩, h3⟩ := h
  simp [boundaryCheck, h1, h2, h3]

/-! ## Body-step path lemmas -/

theorem bodyStep_insig {l : Str} (s : State)
    (h : (List.isEmpty l || startsWith l commentMark) = true) :
    bodyStep s l = .ok { s with line := l } := by
  simp [bodyStep, h]

theorem bodyStep_plain {l : Str} (s : State)
    (hc : (List.isEmpty l || startsWith l commentMark) = false)
    (hb : isBoundaryLine l = false) :
    bodyStep s l =
      if s.ignore then .ok { s with line := l } else writeLineOp { s with line := l } := by
  simp [bodyStep, hc, boundaryCheck_not _ hb]

theorem bodyStep_panic {l : Str} (s : State)
    (hc : (List.isEmpty l || startsWith l commentMark) = false)
    (hb : isBoundaryLine l = true)
    (he : extractEntity l = none) :
    bodyStep s l = .error .slicePanic := by
  have hfst : (boundaryCheck s.typ l).1 = true := by rw [boundaryCheck_fst, hb]
  simp [bodyStep, hc, hfst, he]

theorem bodyStep_boundary {l ty t : Str} (s : State)
    (hc : (List.isEmpty l || startsWith l commentMark) = false)
    (hbc : boundaryCheck s.typ l = (true, ty))
    (he : extractEntity l = some t) :
    bodyStep s l =
      if ignoreDecision ty t s.cfg then
        .ok { s with line := l, typ := ty, table := t, ignore := ignoreDecision ty t s.cfg }
      else
        writeLineOp (createOp { s with line := l, typ := ty, table := t, ignore := false }
          (t ++ sqlExt)) := by
  by_cases hig : ignoreDecision ty t s.cfg = true
  · simp [bodyStep, hc, hbc, he, hig, createOp_ignore]
  · simp only [Bool.not_eq_true] at hig
    simp [bodyStep, hc, hbc, he, hig, createOp_ignore]

/-! ## Preservation lemmas -/

theorem presEq_trans {a b c : State} (h1 : presEq a b) (h2 : presEq b c) : presEq a c := by
  obtain ⟨a1, a2, a3, a4, a5, a6, a7, a8, a9⟩ := h1
  obtain ⟨b1, b2, b3, b4, b5, b6, b7, b8, b9⟩ := h2
  exact ⟨a1.trans b1, a2.trans b2, a3.trans b3, a4.trans b4, a5.trans b5, a6.trans b6,
    a7.trans b7, a8.trans b8, a9.trans b9⟩

theorem resolvedOutfile_nil (cfg : Cfg) : resolvedOutfile cfg = [] ↔ cfg.outfile = [] := by
  by_cases hd : cfg.outfile = dashName
  · rw [resolvedOutfile, if_pos hd, hd]
    decide
  · rw [resolvedOutfile, if_neg hd]

theorem createOp_presEq (s : State) (f : Str) :
    presEq (createOp s f) s ∧ (createOp s f).count = s.count ∧
    (createOp s f).line = s.line ∧ (createOp s f).typ = s.typ ∧
    (createOp s f).table = s.table ∧ (createOp s f).ignore = s.ignore := by
  by_cases h1 : s.cfg.outfile = []
  · cases h2 : s.created.contains (fullName s f)
    · rw [createOp_dir_fresh f h1 h2]; simp [presEq]
    · rw [createOp_dir_append f h1 h2]; simp [presEq]
  · cases h2 : s.out with
    | none => rw [createOp_single_open f h1 h2]; simp [presEq, resolvedOutfile_nil]
    | some v => rw [createOp_single_noop f h1 (by simp [h2])]; simp [presEq]

theorem createOp_out_isSome (s : State) (f : Str) : (createOp s f).out.isSome = true := by
  by_cases h1 : s.cfg.outfile = []
  · cases h2 : s.created.contains (fullName s f)
    · rw [createOp_dir_fresh f h1 h2]; rfl
    · rw [createOp_dir_append f h1 h2]; rfl
  · cases h2 : s.out with
    | none => rw [createOp_single_open f h1 h2]; rfl
    | some v => rw [createOp_single_noop f h1 (by simp [h2])]; simp [h2]

theorem writeLineOp_ok_shape {s s' : State} (h : writeLineOp s = .ok s') :
    ∃ f, s.out = some f ∧
      s' = { s with fs := fsSet s.fs f ((fsLookup s.fs f).getD [] ++ s.line ++ ['\r', '\n']) } := by
  unfold writeLineOp at h
  revert h
  cases hso : s.out with
  | none => intro h; simp at h
  | some f =>
    intro h
    simp at h
    exact ⟨f, rfl, by rw [← h]; simp⟩

theorem bodyStep_pres {s : State} {l : Str} {s' : State} (h : bodyStep s l = .ok s') :
    presEq s' s ∧ s'.count = s.count := by
  cases hc : (List.isEmpty l || startsWith l commentMark) with
  | true =>
    rw [bodyStep_insig s hc] at h
    simp at h
    subst h
    simp [presEq]
  | false =>
    cases hb : isBoundaryLine l with
    | false =>
      rw [bodyStep_plain s hc hb] at h
      cases hig : s.ignore with
      | true =>
        simp [hig] at h
        subst h
        simp [presEq]
      | false =>
        simp [hig] at h
        obtain ⟨f, hf, rfl⟩ := writeLineOp_ok_shape h
        simp [presEq]
    | true =>
      cases he : extractEntity l with
      | none => rw [bodyStep_panic s hc hb he] at h; simp at h
      | some t =>
        rcases hq : boundaryCheck s.typ l with ⟨b, ty⟩
        have hb' : b = true := by
          have hf := boundaryCheck_fst s.typ l
          rw [hq, hb] at hf
          exact hf
        subst hb'
        rw [bodyStep_boundary s hc hq he] at h
        cases hig : ignoreDecision ty t s.cfg with
        | true =>
          simp [hig] at h
          subst h
          simp [presEq]
        | false =>
          simp [hig] at h
          obtain ⟨f, hf, rfl⟩ := writeLineOp_ok_shape h
          have hco := createOp_presEq
            { s with line := l, typ := ty, table := t, ignore := false } (t ++ sqlExt)
          refine ⟨presEq_trans (presEq_trans (by simp [presEq]) hco.1) (by simp [presEq]), ?_⟩
          have := hco.2.1
          simp at this
          simp [this]

theorem bodyLoop_pres (input : List Str) : ∀ s s' : State, bodyLoop s input = .ok s' →
    presEq s' s ∧ s'.count = s.count + input.length := by
  induction input with
  | nil =>
    intro s s' h
    simp [bodyLoop] at h
    subst h
    exact ⟨⟨rfl, rfl, rfl, rfl, rfl, rfl, rfl, rfl, Iff.rfl⟩, rfl⟩
  | cons l rest ih =>
    intro s s' h
    simp only [bodyLoop] at h
    cases hstep : bodyStep { s with count := s.count + 1 } l with
    | error e => rw [hstep] at h; simp at h
    | ok s1 =>
      rw [hstep] at h
      simp at h
      obtain ⟨hp, hcnt⟩ := ih s1 s' h
      obtain ⟨hp0, hc0⟩ := bodyStep_pres hstep
      refine ⟨presEq_trans hp hp0, ?_⟩
      simp at hc0
      simp [hcnt, hc0, List.length_cons]
      omega

theorem bodyPhase_pres {s : State} {input : List Str} {s2 : State}
    (h : bodyPhase s input = .ok s2) :
    s2.count = s.count + input.length ∧ s2.headers = s.headers ∧
    s2.cfg.includeT = s.cfg.includeT ∧ s2.cfg.exclude = s.cfg.exclude ∧
    s2.cfg.excludeData = s.cfg.excludeData ∧ s2.cfg.mode = s.cfg.mode ∧
    s2.cfg.compress = s.cfg.compress ∧ s2.cfg.outdir = s.cfg.outdir ∧
    (s2.cfg.outfile = [] ↔ s.cfg.outfile = []) := by
  unfold bodyPhase at h
  by_cases hsk : s.skip = true
  · simp only [hsk, if_true] at h
    cases hstep : bodyStep { s with skip := false } s.line with
    | error e => rw [hstep] at h; simp at h
    | ok s1 =>
      rw [hstep] at h
      simp at h
      obtain ⟨hp, hcnt⟩ := bodyLoop_pres input s1 s2 h
      obtain ⟨hp0, hc0⟩ := bodyStep_pres hstep
      obtain ⟨a1, a2, a3, a4, a5, a6, a7, a8, a9⟩ := hp
      obtain ⟨b1, b2, b3, b4, b5, b6, b7, b8, b9⟩ := hp0
      simp at hc0
      refine ⟨?_, a1.trans b1, a3.trans b3, a4.trans b4, a5.trans b5, a6.trans b6,
        a7.trans b7, a8.trans b8, a9.trans b9⟩
      omega
  · simp only [Bool.not_eq_true] at hsk
    simp only [hsk, Bool.false_eq_true, if_false] at h
    obtain ⟨hp, hcnt⟩ := bodyLoop_pres input s s2 h
    obtain ⟨a1, a2, a3, a4, a5, a6, a7, a8, a9⟩ := hp
    exact ⟨hcnt, a1, a3, a4, a5, a6, a7, a8, a9⟩

theorem runM_ok_shape {cfg : Cfg} {lines : List Str} {rerr : Option ReadErr}
    {p : State × Option (Nat × ReadErr)} (h : runM cfg lines rerr = .ok p) :
    ∃ s2, bodyPhase (headerLoop (initState cfg) lines).1 (headerLoop (initState cfg) lines).2
        = .ok s2 ∧
      p = (if s2.out.isSome then { s2 with out := none } else s2,
           rerr.map fun e =>
             ((if s2.out.isSome then { s2 with out := none } else s2).count + 1, e)) := by
  simp only [runM] at h
  revert h
  cases hbp : bodyPhase (headerLoop (initState cfg) lines).1
      (headerLoop (initState cfg) lines).2 with
  | error e2 => intro h; simp at h
  | ok s2 =>
    intro h
    simp at h
    exact ⟨s2, rfl, h.symm⟩

/-! ## Claim C9: read-error surfacing -/

/-- **C9.** If the input stream reports a read error (e.g. the oversized-line
failure), the scan result closes the open output destination and surfaces the
error annotated with the 1-based line number: one more than the number of
lines successfully consumed. -/
theorem c9_read_error (cfg : Cfg) (lines : List Str) (e : ReadErr)
    (p : State × Option (Nat × ReadErr)) (h : runM cfg lines (some e) = .ok p) :
    p.2 = some (lines.length + 1, e) ∧ p.1.out = none := by
  obtain ⟨s2, hbp, hp⟩ := runM_ok_shape h
  have hc2 := (bodyPhase_pres hbp).1
  have hcl := headerLoop_count lines (initState cfg)
  have h0 : (initState cfg).count = 0 := rfl
  have hcount : s2.count = lines.length := by omega
  subst hp
  cases hos : s2.out.isSome
  · have hnone : s2.out = none := Option.not_isSome_iff_eq_none.1 (by simp [hos])
    simp [hos, hcount, hnone]
  · simp [hos, hcount]

/-- Witness for C9: an empty input stream whose reader reports `boom`; the
surfaced annotation is line 1 and no destination remains open. -/
theorem c9_read_error_witness :
    ∃ p, runM singleCfg [] (some "boom".toList) = .ok p ∧
      p.2 = some (1, "boom".toList) ∧ p.1.out = none := by
  refine ⟨_, rfl, ?_, ?_⟩
  · exact (c9_read_error singleCfg [] "boom".toList _ rfl).1
  · exact (c9_read_error singleCfg [] "boom".toList _ rfl).2

/-! ## Claim C1: the filter decision -/

/-- **C1.** The filter evaluator marks a segment ignored exactly when: the
include list is non-empty and misses the entity, or the exclude list contains
it, or the kind is data under schema mode, or the kind is schema under data
mode, or the kind is data and the entity is in excludeData; otherwise the
segment is kept.  In particular a view segment is never excluded by `mode`:
for views the decision reduces to the include/exclude conditions alone. -/
theorem c1_filter_decision (typ table : Str) (cfg : Cfg) :
    (ignoreDecision typ table cfg = true ↔
      ((cfg.includeT ≠ [] ∧ table ∉ cfg.includeT) ∨ table ∈ cfg.exclude ∨
        (typ = dataT ∧ cfg.mode = schemaT) ∨ (typ = schemaT ∧ cfg.mode = dataT) ∨
        (typ = dataT ∧ table ∈ cfg.excludeData))) ∧
    (typ = viewT →
      (ignoreDecision typ table cfg = true ↔
        ((cfg.includeT ≠ [] ∧ table ∉ cfg.includeT) ∨ table ∈ cfg.exclude))) := by
  constructor
  · simp [ignoreDecision, or_assoc]
  · intro hv
    subst hv
    simp [ignoreDecision, viewT, dataT, schemaT]

/-- Witness for C1: with mode `schema`, a data segment for `t2` is ignored,
and a view segment for `t2` is kept under the same policy. -/
theorem c1_filter_decision_witness :
    ignoreDecision dataT "t2".toList
        { dirCfg "d".toList with mode := schemaT } = true ∧
      ignoreDecision viewT "t2".toList
        { dirCfg "d".toList with mode := schemaT } = false := by
  constructor
  · exact (c1_filter_decision dataT "t2".toList _).1.2 (by right; right; left; exact ⟨rfl, rfl⟩)
  · have hv := (c1_filter_decision viewT "t2".toList
      { dirCfg "d".toList with mode := schemaT }).2 rfl
    cases hig : ignoreDecision viewT "t2".toList { dirCfg "d".toList with mode := schemaT }
    · rfl
    · exact absurd (hv.1 hig) (by decide)

/-! ## Claim C5: header capture and pushback -/

theorem cond_of_sig {l : Str} (h : sigLine l = true) :
    (List.isEmpty l || startsWith l commentMark) = false := by
  cases hc : (List.isEmpty l || startsWith l commentMark)
  · rfl
  · simp [sigLine, hc] at h

/-- **C5.** The captured header block is exactly the maximal leading run of
non-blank, non-comment lines beginning with the directive marker (joined
with LF, as the buffer stores them); the remaining body feed, restricted to
significant lines, is exactly the rest of the significant lines starting
with the first non-matching one (the pushback line is re-evaluated, no line
is dropped); and the body phase never extends the captured block. -/
theorem c5_header_block (cfg : Cfg) (lines : List Str) :
    ((headerPhase cfg lines).1.headers
        = joinLF ((lines.filter sigLine).takeWhile (fun l => startsWith l headerMark))) ∧
    ((bodyFeed cfg lines).filter sigLine
        = (lines.filter sigLine).dropWhile (fun l => startsWith l headerMark)) ∧
    (∀ s2, bodyPhase (headerPhase cfg lines).1 (headerPhase cfg lines).2 = .ok s2 →
      s2.headers = (headerPhase cfg lines).1.headers) := by
  refine ⟨?_, ?_, ?_⟩
  · have := headerLoop_headers lines (initState cfg)
    simpa [headerPhase, initState] using this
  · have := headerLoop_feed lines (initState cfg) rfl
    simpa [bodyFeed, headerPhase] using this
  · intro s2 h
    exact (bodyPhase_pres h).2.1

/-- Witness for C5: on a concrete two-line dump the body phase succeeds and
leaves the captured header block unchanged. -/
theorem c5_header_block_witness :
    ∃ s2, bodyPhase (headerPhase singleCfg ["/*!a".toList, "DROP TABLE `t`;".toList]).1
        (headerPhase singleCfg ["/*!a".toList, "DROP TABLE `t`;".toList]).2 = .ok s2 ∧
      s2.headers = (headerPhase singleCfg ["/*!a".toList, "DROP TABLE `t`;".toList]).1.headers :=
  ⟨_, rfl, (c5_header_block singleCfg _).2.2 _ rfl⟩

/-! ## Claim C2: boundary precedence -/

/-- **C2.** Boundary classification tests the three markers in fixed
precedence with first match winning — view, then schema, then data — and a
line matching none of them leaves the active `(typ, table)` pair unchanged. -/
theorem c2_boundary_precedence (typ l : Str) (s s' : State) :
    (isViewStart l = true → boundaryCheck typ l = (true, viewT)) ∧
    (isViewStart l = false → isSchemaStart l = true → boundaryCheck typ l = (true, schemaT)) ∧
    (isViewStart l = false → isSchemaStart l = false → isDataStart l = true →
      boundaryCheck typ l = (true, dataT)) ∧
    (isViewStart l = false → isSchemaStart l = false → isDataStart l = false →
      boundaryCheck typ l = (false, typ)) ∧
    (sigLine l = true → isBoundaryLine l = false → bodyStep s l = .ok s' →
      s'.typ = s.typ ∧ s'.table = s.table) := by
  refine ⟨?_, ?_, ?_, ?_, ?_⟩
  · intro h; simp [boundaryCheck, h]
  · intro h1 h2; simp [boundaryCheck, h1, h2]
  · intro h1 h2 h3; simp [boundaryCheck, h1, h2, h3]
  · intro h1 h2 h3; simp [boundaryCheck, h1, h2, h3]
  · intro hsig hb h
    rw [bodyStep_plain s (cond_of_sig hsig) hb] at h
    cases hig : s.ignore
    · simp [hig] at h
      obtain ⟨f, hf, rfl⟩ := writeLineOp_ok_shape h
      simp
    · simp [hig] at h
      subst h
      simp

/-- Witness for C2: `LOCK TABLES` wins as a data boundary on a concrete line,
and a concrete non-boundary body line leaves the active pair unchanged. -/
theorem c2_boundary_precedence_witness :
    boundaryCheck [] "LOCK TABLES `t` WRITE;".toList = (true, dataT) ∧
    ∃ s', bodyStep { initState singleCfg with out := some "f".toList } "SET @x=1;".toList
        = .ok s' ∧ s'.typ = [] ∧ s'.table = [] := by
  constructor
  · exact (c2_boundary_precedence [] "LOCK TABLES `t` WRITE;".toList
      (initState singleCfg) (initState singleCfg)).2.2.1 (by decide) (by decide) (by decide)
  · refine ⟨_, rfl, ?_⟩
    have := (c2_boundary_precedence [] "SET @x=1;".toList
      { initState singleCfg with out := some "f".toList } _).2.2.2.2 (by decide) (by decide) rfl
    exact ⟨this.1, this.2⟩

/-! ## Claim C7: the decision is held between boundaries and ignored
segments are never written -/

/-- **C7.** A non-boundary line never changes the ignore flag (nor the active
pair); at a boundary line the flag is recomputed from the filter decision;
and whenever a line is processed with the resulting flag ignored, the file
system is untouched — no line of an ignored segment is ever written. -/
theorem c7_ignore_held (s : State) (l : Str) (s' : State) :
    (sigLine l = true → isBoundaryLine l = false → bodyStep s l = .ok s' →
      s'.ignore = s.ignore ∧ s'.typ = s.typ ∧ s'.table = s.table) ∧
    (sigLine l = true → isBoundaryLine l = true → ∀ t, extractEntity l = some t →
      bodyStep s l = .ok s' →
      s'.ignore = ignoreDecision (boundaryCheck s.typ l).2 t s.cfg) ∧
    (bodyStep s l = .ok s' → s'.ignore = true → s'.fs = s.fs) := by
  refine ⟨?_, ?_, ?_⟩
  · intro hsig hb h
    rw [bodyStep_plain s (cond_of_sig hsig) hb] at h
    cases hig : s.ignore
    · simp [hig] at h
      obtain ⟨f, hf, rfl⟩ := writeLineOp_ok_shape h
      simp [hig]
    · simp [hig] at h
      subst h
      simp [hig]
  · intro hsig hb t he h
    rcases hq : boundaryCheck s.typ l with ⟨b, ty⟩
    have hb' : b = true := by
      have hf := boundaryCheck_fst s.typ l
      rw [hq, hb] at hf
      exact hf
    subst hb'
    rw [bodyStep_boundary s (cond_of_sig hsig) hq he] at h
    cases hig : ignoreDecision ty t s.cfg with
    | true =>
      simp [hig] at h
      subst h
      simp [hq, hig]
    | false =>
      simp [hig] at h
      obtain ⟨f, hf, rfl⟩ := writeLineOp_ok_shape h
      have hco := createOp_ignore
        { s with line := l, typ := ty, table := t, ignore := false } (t ++ sqlExt)
      simp [hq, hig, hco]
  · intro h hig'
    cases hc : (List.isEmpty l || startsWith l commentMark) with
    | true =>
      rw [bodyStep_insig s hc] at h
      simp at h
      subst h
      rfl
    | false =>
      cases hb : isBoundaryLine l with
      | false =>
        rw [bodyStep_plain s hc hb] at h
        cases hig : s.ignore with
        | true => simp [hig] at h; subst h; rfl
        | false =>
          simp [hig] at h
          obtain ⟨f, hf, rfl⟩ := writeLineOp_ok_shape h
          simp [hig] at hig'
      | true =>
        cases he : extractEntity l with
        | none => rw [bodyStep_panic s hc hb he] at h; simp at h
        | some t =>
          rcases hq : boundaryCheck s.typ l with ⟨b, ty⟩
          have hb' : b = true := by
            have hf := boundaryCheck_fst s.typ l
            rw [hq, hb] at hf
            exact hf
          subst hb'
          rw [bodyStep_boundary s hc hq he] at h
          cases hig : ignoreDecision ty t s.cfg with
          | true => simp [hig] at h; subst h; rfl
          | false =>
            simp [hig] at h
            obtain ⟨f, hf, rfl⟩ := writeLineOp_ok_shape h
            have hco := createOp_ignore
              { s with line := l, typ := ty, table := t, ignore := false } (t ++ sqlExt)
            simp [hco] at hig'

/-- Witness for C7: processing a concrete body line while the current segment
is ignored leaves the (empty) file system untouched. -/
theorem c7_ignore_held_witness :
    ∃ s', bodyStep { initState (dirCfg "d".toList) with ignore := true }
        "INSERT INTO x VALUES (1);".toList = .ok s' ∧ s'.fs = [] := by
  refine ⟨_, rfl, ?_⟩
  exact (c7_ignore_held { initState (dirCfg "d".toList) with ignore := true }
    "INSERT INTO x VALUES (1);".toList _).2.2 rfl rfl

/-! ## Claim C10: writes with no destination open -/

theorem bodyLoop_nilWrite (input : List Str) : ∀ s : State, s.ignore = false →
    s.out = none → ∀ l rest, input.filter sigLine = l :: rest → isBoundaryLine l = false →
    bodyLoop s input = .error .nilWrite := by
  induction input with
  | nil => intro s _ _ l rest h _; simp at h
  | cons x xs ih =>
    intro s hig hout l rest hfil hb
    simp only [bodyLoop]
    cases hcx : (List.isEmpty x || startsWith x commentMark) with
    | true =>
      have hsx : sigLine x = false := notSig_of_cond hcx
      simp only [List.filter_cons, hsx, Bool.false_eq_true, if_false] at hfil
      rw [bodyStep_insig _ hcx]
      exact ih _ hig hout l rest hfil hb
    | false =>
      have hsx : sigLine x = true := sig_of_cond hcx
      simp only [List.filter_cons, hsx, if_true] at hfil
      have hxl : x = l := (List.cons.injEq _ _ _ _ ▸ hfil).1
      subst hxl
      rw [bodyStep_plain _ hcx hb]
      have hout' : ({ s with count := s.count + 1, line := x } : State).out = none := hout
      rw [writeLineOp_none hout']
      simp [hig]

/-- **C10.** If the first significant line after the header block is not a
boundary-marker line, the drive loop reaches the line-write operation with no
destination open (a nil writer), so the run is the modelled nil-write fault. -/
theorem c10_nil_writer (cfg : Cfg) (lines : List Str) (rerr : Option ReadErr)
    (l : Str) (rest : List Str)
    (hfeed : (lines.filter sigLine).dropWhile (fun x => startsWith x headerMark) = l :: rest)
    (hb : isBoundaryLine l = false) :
    runM cfg lines rerr = .error .nilWrite := by
  have hinv := headerLoop_inv lines (initState cfg)
  have hfd := (headerLoop_feed lines (initState cfg) rfl).trans hfeed
  have hskp := headerLoop_skip lines (initState cfg) rfl
  rcases hHL : headerLoop (initState cfg) lines with ⟨s1, rem⟩
  rw [hHL] at hinv hfd hskp
  dsimp only at hinv hfd hskp
  obtain ⟨hcfg, hcr, hfs, hout, htbl, hign, htyp⟩ := hinv
  have hig0 : s1.ignore = false := hign
  have hout0 : s1.out = none := hout
  have hbp : bodyPhase s1 rem = .error .nilWrite := by
    unfold bodyPhase
    cases hsk : s1.skip with
    | false =>
      simp only [hsk, Bool.false_eq_true, if_false]
      rw [hsk] at hfd
      simp only [Bool.false_eq_true, if_false, List.nil_append] at hfd
      exact bodyLoop_nilWrite _ _ hig0 hout0 l rest hfd hb
    | true =>
      simp only [hsk, if_true]
      have hsig := (hskp hsk).1
      rw [hsk] at hfd
      simp only [if_true, List.singleton_append, List.filter_cons, hsig] at hfd
      have hxl : s1.line = l := (List.cons.injEq _ _ _ _ ▸ hfd).1
      have hstep : bodyStep { s1 with skip := false } s1.line = .error .nilWrite := by
        rw [hxl, bodyStep_plain _ (cond_of_sig (hxl ▸ hsig)) hb]
        have hout' : ({ s1 with skip := false, line := l } : State).out = none := hout0
        rw [writeLineOp_none hout']
        simp [hig0]
      rw [hstep]
  simp only [runM]
  rw [hHL]
  dsimp only
  rw [hbp]

/-- Witness for C10: a dump whose first significant line is a plain
`CREATE TABLE` statement (no boundary marker seen yet) hits the nil writer. -/
theorem c10_nil_writer_witness :
    runM singleCfg ["CREATE TABLE x (id int);".toList] none = .error .nilWrite :=
  c10_nil_writer singleCfg ["CREATE TABLE x (id int);".toList] none
    "CREATE TABLE x (id int);".toList [] (by decide) (by decide)

/-! ## Claim C3: per-entity create and append -/

theorem fsSet_lookup_self {fs : List (Str × Str)} {f c : Str} (h : fsLookup fs f = some c) :
    fsSet fs f c = fs := by
  induction fs with
  | nil => simp [fsLookup] at h
  | cons p rest ih =>
    obtain ⟨a, b⟩ := p
    by_cases ha : a = f
    · subst ha
      simp [fsLookup] at h
      simp [fsSet, h]
    · simp [fsLookup, ha] at h
      simp [fsSet, ha, ih h]

theorem sig_of_headerMark {h : Str} (hh : startsWith h headerMark = true) :
    (List.isEmpty h || startsWith h commentMark) = false := by
  have hm : headerMark = '/' :: "*!".toList := rfl
  rw [hm] at hh
  obtain ⟨u, rfl, _⟩ := startsWith_cons_ex hh
  simp [commentMark, startsWith]

theorem dropLine_facts (t : Str) :
    (List.isEmpty (dropLine t) || startsWith (dropLine t) commentMark) = false ∧
    startsWith (dropLine t) headerMark = false ∧
    (∀ typ, boundaryCheck typ (dropLine t) = (true, schemaT)) ∧
    extractEntity (dropLine t) = some t := by
  refine ⟨?_, ?_, ?_, ?_⟩
  · simp [dropLine, dropMark, commentMark, startsWith]
  · simp [dropLine, dropMark, headerMark, startsWith]
  · intro typ
    have hv : isViewStart (dropLine t) = false := by
      simp [isViewStart, dropLine, dropMark, viewMark, startsWith]
    have hsc : isSchemaStart (dropLine t) = true := by
      rw [isSchemaStart, show dropLine t = dropMark ++ (' ' :: '`' :: (t ++ ['`', ';'])) from rfl]
      exact startsWith_append_self _ _
    simp [boundaryCheck, hv, hsc]
  · rw [show dropLine t = (dropMark ++ [' ']) ++ '`' :: (t ++ '`' :: [';']) by simp [dropLine]]
    exact extractEntity_decomp (by decide) (by decide)

theorem lockLine_facts (t : Str) :
    (List.isEmpty (lockLine t) || startsWith (lockLine t) commentMark) = false ∧
    startsWith (lockLine t) headerMark = false ∧
    (∀ typ, boundaryCheck typ (lockLine t) = (true, dataT)) ∧
    extractEntity (lockLine t) = some t := by
  refine ⟨?_, ?_, ?_, ?_⟩
  · simp [lockLine, lockMark, commentMark, startsWith]
  · simp [lockLine, lockMark, headerMark, startsWith]
  · intro typ
    have hv : isViewStart (lockLine t) = false := by
      simp [isViewStart, lockLine, lockMark, viewMark, startsWith]
    have hsc : isSchemaStart (lockLine t) = false := by
      simp [isSchemaStart, lockLine, lockMark, dropMark, startsWith]
    have hd : isDataStart (lockLine t) = true := by
      rw [isDataStart,
        show lockLine t = lockMark ++ (' ' :: '`' :: (t ++ '`' :: " WRITE;".toList)) from rfl]
      exact startsWith_append_self _ _
    simp [boundaryCheck, hv, hsc, hd]
  · rw [show lockLine t = (lockMark ++ [' ']) ++ '`' :: (t ++ '`' :: " WRITE;".toList) by
      simp [lockLine]]
    exact extractEntity_decomp (by decide) (by decide)

theorem ignoreDecision_dirCfg (ty t d : Str) : ignoreDecision ty t (dirCfg d) = false := by
  have h1 : ((dirCfg d).mode == schemaT) = false := rfl
  have h2 : ((dirCfg d).mode == dataT) = false := rfl
  simp [ignoreDecision, dirCfg] at h1 h2 ⊢
  exact ⟨fun _ => h1, fun _ => h2⟩

theorem headerLoop_run_headers (hs : List Str) : ∀ (s : State) (l : Str) (rest : List Str),
    (∀ h ∈ hs, startsWith h headerMark = true) →
    (List.isEmpty l || startsWith l commentMark) = false →
    startsWith l headerMark = false →
    headerLoop s (hs ++ l :: rest) =
      ({ s with count := s.count + hs.length + 1, line := l, skip := true,
                headers := s.headers ++ joinLF hs }, rest) := by
  induction hs with
  | nil =>
    intro s l rest _ hc hh
    rw [List.nil_append, headerLoop_cons_break rest s hc hh]
    simp [joinLF]
  | cons h hs' ih =>
    intro s l rest hall hc hh
    have hh1 := hall h (List.mem_cons_self h hs')
    rw [List.cons_append, headerLoop_cons_header (hs' ++ l :: rest) s (sig_of_headerMark hh1) hh1]
    rw [ih _ l rest (fun y hy => hall y (List.mem_cons_of_mem h hy)) hc hh]
    simp [State.mk.injEq, Prod.mk.injEq, joinLF, List.append_assoc]
    omega

theorem bodyLoop_plain_append (xs : List Str) : ∀ (s : State) (f c : Str) (rest : List Str),
    (∀ x ∈ xs, sigLine x = true ∧ isBoundaryLine x = false) →
    s.ignore = false → s.out = some f → fsLookup s.fs f = some c →
    ∃ s', bodyLoop s (xs ++ rest) = bodyLoop s' rest ∧
      s'.fs = fsSet s.fs f (c ++ joinCRLF xs) ∧ s'.out = some f ∧ s'.ignore = false ∧
      s'.typ = s.typ ∧ s'.table = s.table ∧ s'.cfg = s.cfg ∧ s'.headers = s.headers ∧
      s'.created = s.created ∧ s'.skip = s.skip := by
  induction xs with
  | nil =>
    intro s f c rest _ hig hout hfs
    refine ⟨s, by simp, ?_, hout, hig, rfl, rfl, rfl, rfl, rfl, rfl⟩
    rw [joinCRLF, List.append_nil, fsSet_lookup_self hfs]
  | cons x xs' ih =>
    intro s f c rest hall hig hout hfs
    have hx := hall x (List.mem_cons_self x xs')
    rw [List.cons_append]
    simp only [bodyLoop]
    rw [bodyStep_plain _ (cond_of_sig hx.1) hx.2]
    have hout' : ({ s with count := s.count + 1, line := x } : State).out = some f := hout
    rw [writeLineOp_some hout']
    simp only [hig, Bool.false_eq_true, if_false]
    rw [hfs]
    have hlk : fsLookup (fsSet s.fs f (Option.getD (some c) [] ++ x ++ ['\r', '\n'])) f
        = some (c ++ x ++ ['\r', '\n']) := by
      simp [fsLookup_fsSet_self]
    obtain ⟨s', heq, hfs', hout'', hig'', htyp', htbl', hcfg', hhd', hcr', hskip'⟩ :=
      ih { s with count := s.count + 1, line := x, ignore := false, fs := fsSet s.fs f (Option.getD (some c) [] ++ x ++ ['\r', '\n']) } f (c ++ x ++ ['\r', '\n']) rest (fun y hy => hall y (List.mem_cons_of_mem x hy)) rfl hout hlk
    refine ⟨s', heq, ?_, hout'', hig'', htyp', htbl', hcfg', hhd', hcr', hskip'⟩
    rw [hfs']
    dsimp only
    rw [fsSet_fsSet_self]
    simp [joinCRLF, List.append_assoc]

theorem bodyStep_boundary_kept (s : State) (l ty t : Str)
    (hc : (List.isEmpty l || startsWith l commentMark) = false)
    (hbc : boundaryCheck s.typ l = (true, ty))
    (he : extractEntity l = some t)
    (hig : ignoreDecision ty t s.cfg = false)
    (hof : s.cfg.outfile = []) :
    (s.created.contains (fullName s (t ++ sqlExt)) = false →
      bodyStep s l = .ok
        { s with
          line := l,
          typ := ty,
          table := t,
          ignore := false,
          created := fullName s (t ++ sqlExt) :: s.created,
          fs := fsSet s.fs (fullName s (t ++ sqlExt))
            ((s.headers ++ ['\n']) ++ l ++ ['\r', '\n']),
          out := some (fullName s (t ++ sqlExt)) }) ∧
    (s.created.contains (fullName s (t ++ sqlExt)) = true →
      ∀ c, fsLookup s.fs (fullName s (t ++ sqlExt)) = some c →
      bodyStep s l = .ok
        { s with
          line := l,
          typ := ty,
          table := t,
          ignore := false,
          fs := fsSet s.fs (fullName s (t ++ sqlExt)) (c ++ l ++ ['\r', '\n']),
          out := some (fullName s (t ++ sqlExt)) }) := by
  constructor
  · intro hcontains
    rw [bodyStep_boundary s hc hbc he]
    simp only [hig, Bool.false_eq_true, if_false]
    have hof2 : ({ s with line := l, typ := ty, table := t, ignore := false } : State).cfg.outfile = [] := hof
    have hcont2 : ({ s with line := l, typ := ty, table := t, ignore := false } : State).created.contains (fullName { s with line := l, typ := ty, table := t, ignore := false } (t ++ sqlExt)) = false := hcontains
    rw [createOp_dir_fresh (t ++ sqlExt) hof2 hcont2]
    rw [writeLineOp_some rfl]
    simp [fullName, fsSet_fsSet_self, fsLookup_fsSet_self, State.mk.injEq, List.append_assoc]
  · intro hcontains c hlk
    rw [bodyStep_boundary s hc hbc he]
    simp only [hig, Bool.false_eq_true, if_false]
    have hof2 : ({ s with line := l, typ := ty, table := t, ignore := false } : State).cfg.outfile = [] := hof
    have hcont2 : ({ s with line := l, typ := ty, table := t, ignore := false } : State).created.contains (fullName { s with line := l, typ := ty, table := t, ignore := false } (t ++ sqlExt)) = true := hcontains
    rw [createOp_dir_append (t ++ sqlExt) hof2 hcont2]
    rw [writeLineOp_some rfl]
    simp only [fullName, List.append_assoc] at hlk
    simp [fullName, hlk, State.mk.injEq, List.append_assoc]

theorem bodyStep_fresh_ex (s : State) (l ty t : Str)
    (hc : (List.isEmpty l || startsWith l commentMark) = false)
    (hbc : boundaryCheck s.typ l = (true, ty))
    (he : extractEntity l = some t)
    (hig : ignoreDecision ty t s.cfg = false)
    (hof : s.cfg.outfile = [])
    (hcont : s.created.contains (fullName s (t ++ sqlExt)) = false) :
    ∃ s2, bodyStep s l = .ok s2 ∧ s2.line = l ∧ s2.typ = ty ∧ s2.table = t ∧
      s2.ignore = false ∧ s2.skip = s.skip ∧ s2.count = s.count ∧ s2.headers = s.headers ∧
      s2.cfg = s.cfg ∧ s2.created = fullName s (t ++ sqlExt) :: s.created ∧
      s2.out = some (fullName s (t ++ sqlExt)) ∧
      s2.fs = fsSet s.fs (fullName s (t ++ sqlExt))
        ((s.headers ++ ['\n']) ++ l ++ ['\r', '\n']) :=
  ⟨_, (bodyStep_boundary_kept s l ty t hc hbc he hig hof).1 hcont,
    rfl, rfl, rfl, rfl, rfl, rfl, rfl, rfl, rfl, rfl, rfl⟩

theorem bodyStep_append_ex (s : State) (l ty t : Str)
    (hc : (List.isEmpty l || startsWith l commentMark) = false)
    (hbc : boundaryCheck s.typ l = (true, ty))
    (he : extractEntity l = some t)
    (hig : ignoreDecision ty t s.cfg = false)
    (hof : s.cfg.outfile = [])
    (hcont : s.created.contains (fullName s (t ++ sqlExt)) = true)
    (c : Str) (hlk : fsLookup s.fs (fullName s (t ++ sqlExt)) = some c) :
    ∃ s2, bodyStep s l = .ok s2 ∧ s2.line = l ∧ s2.typ = ty ∧ s2.table = t ∧
      s2.ignore = false ∧ s2.skip = s.skip ∧ s2.count = s.count ∧ s2.headers = s.headers ∧
      s2.cfg = s.cfg ∧ s2.created = s.created ∧
      s2.out = some (fullName s (t ++ sqlExt)) ∧
      s2.fs = fsSet s.fs (fullName s (t ++ sqlExt)) (c ++ l ++ ['\r', '\n']) :=
  ⟨_, (bodyStep_boundary_kept s l ty t hc hbc he hig hof).2 hcont c hlk,
    rfl, rfl, rfl, rfl, rfl, rfl, rfl, rfl, rfl, rfl, rfl⟩

theorem bodyPhase_schema_data (d t : Str) (xs ys : List Str) (s1 : State)
    (hxs : ∀ x ∈ xs, sigLine x = true ∧ isBoundaryLine x = false)
    (hys : ∀ y ∈ ys, sigLine y = true ∧ isBoundaryLine y = false)
    (hcfg : s1.cfg = dirCfg d) (hcr : s1.created = []) (hfs : s1.fs = [])
    (hskip : s1.skip = true) (hline : s1.line = dropLine t) :
    ∃ sF, bodyPhase s1 (xs ++ lockLine t :: ys) = .ok sF ∧
      sF.out = some (joinPath d (t ++ sqlExt)) ∧
      sF.fs = [(joinPath d (t ++ sqlExt),
        s1.headers ++ '\n' :: (joinCRLF (dropLine t :: xs) ++ joinCRLF (lockLine t :: ys)))] := by
  have hdl := dropLine_facts t
  have hll := lockLine_facts t
  unfold bodyPhase
  rw [if_pos hskip]
  have hc1 : (List.isEmpty s1.line || startsWith s1.line commentMark) = false := by
    rw [hline]; exact hdl.1
  have hbc1 : boundaryCheck ({ s1 with skip := false } : State).typ s1.line
      = (true, schemaT) := by
    rw [hline]; exact hdl.2.2.1 _
  have he1 : extractEntity s1.line = some t := by rw [hline]; exact hdl.2.2.2
  have hig1 : ignoreDecision schemaT t ({ s1 with skip := false } : State).cfg = false := by
    simp [hcfg, ignoreDecision_dirCfg]
  have hof1 : ({ s1 with skip := false } : State).cfg.outfile = [] := by
    simp [hcfg, dirCfg]
  have hcont1 : ({ s1 with skip := false } : State).created.contains
      (fullName { s1 with skip := false } (t ++ sqlExt)) = false := by
    simp [hcr]
  obtain ⟨s2, hstep2, e_line, e_typ, e_tbl, e_ig, e_skip, e_cnt, e_hd, e_cfg, e_cr, e_out, e_fs⟩ :=
    bodyStep_fresh_ex { s1 with skip := false } s1.line schemaT t hc1 hbc1 he1 hig1 hof1 hcont1
  rw [hstep2]
  dsimp only
  dsimp only at e_skip e_cnt e_hd e_cfg e_cr e_out e_fs
  have hn : fullName { s1 with skip := false } (t ++ sqlExt) = joinPath d (t ++ sqlExt) := by
    simp [fullName, hcfg, dirCfg]
  rw [hn] at e_cr e_out e_fs
  rw [hline] at e_line e_fs
  rw [hcr] at e_cr
  rw [hfs] at e_fs
  simp only [fsSet] at e_fs
  have hcfg2 : s2.cfg = dirCfg d := e_cfg.trans hcfg
  have hlk2 : fsLookup s2.fs (joinPath d (t ++ sqlExt))
      = some ((s1.headers ++ ['\n']) ++ dropLine t ++ ['\r', '\n']) := by
    rw [e_fs]
    simp [fsLookup]
  obtain ⟨s3, heq3, h3fs, h3out, h3ig, h3typ, h3tbl, h3cfg, h3hd, h3cr, h3skip⟩ :=
    bodyLoop_plain_append xs s2 (joinPath d (t ++ sqlExt))
      ((s1.headers ++ ['\n']) ++ dropLine t ++ ['\r', '\n']) (lockLine t :: ys) hxs e_ig e_out hlk2
  rw [heq3]
  simp only [bodyLoop]
  have hcfg3 : s3.cfg = dirCfg d := h3cfg.trans hcfg2
  have hfs3 : s3.fs = [(joinPath d (t ++ sqlExt),
      ((s1.headers ++ ['\n']) ++ dropLine t ++ ['\r', '\n']) ++ joinCRLF xs)] := by
    rw [h3fs, e_fs]
    simp [fsSet]
  have hig4 : ignoreDecision dataT t ({ s3 with count := s3.count + 1 } : State).cfg = false := by
    simp [hcfg3, ignoreDecision_dirCfg]
  have hof4 : ({ s3 with count := s3.count + 1 } : State).cfg.outfile = [] := by
    simp [hcfg3, dirCfg]
  have hn4 : fullName { s3 with count := s3.count + 1 } (t ++ sqlExt)
      = joinPath d (t ++ sqlExt) := by
    simp [fullName, hcfg3, dirCfg]
  have hcont4 : ({ s3 with count := s3.count + 1 } : State).created.contains
      (fullName { s3 with count := s3.count + 1 } (t ++ sqlExt)) = true := by
    rw [hn4]
    simp [h3cr.trans e_cr]
  have hlk4 : fsLookup ({ s3 with count := s3.count + 1 } : State).fs
      (fullName { s3 with count := s3.count + 1 } (t ++ sqlExt))
      = some (((s1.headers ++ ['\n']) ++ dropLine t ++ ['\r', '\n']) ++ joinCRLF xs) := by
    rw [hn4]
    dsimp only
    rw [hfs3]
    simp [fsLookup]
  obtain ⟨s4, hstep4, g_line, g_typ, g_tbl, g_ig, g_skip, g_cnt, g_hd, g_cfg, g_cr, g_out, g_fs⟩ :=
    bodyStep_append_ex { s3 with count := s3.count + 1 } (lockLine t) dataT t hll.1 (hll.2.2.1 _)
      hll.2.2.2 hig4 hof4 hcont4 _ hlk4
  rw [hstep4]
  dsimp only
  dsimp only at g_cfg g_fs
  rw [hn4] at g_out g_fs
  have hfs4 : s4.fs = [(joinPath d (t ++ sqlExt),
      (((s1.headers ++ ['\n']) ++ dropLine t ++ ['\r', '\n']) ++ joinCRLF xs)
        ++ lockLine t ++ ['\r', '\n'])] := by
    rw [g_fs, hfs3]
    simp [fsSet]
  have hlk5 : fsLookup s4.fs (joinPath d (t ++ sqlExt))
      = some ((((s1.headers ++ ['\n']) ++ dropLine t ++ ['\r', '\n']) ++ joinCRLF xs)
        ++ lockLine t ++ ['\r', '\n']) := by
    rw [hfs4]
    simp [fsLookup]
  obtain ⟨s5, heq5, h5fs, h5out, h5ig, h5typ, h5tbl, h5cfg, h5hd, h5cr, h5skip⟩ :=
    bodyLoop_plain_append ys s4 (joinPath d (t ++ sqlExt))
      ((((s1.headers ++ ['\n']) ++ dropLine t ++ ['\r', '\n']) ++ joinCRLF xs)
        ++ lockLine t ++ ['\r', '\n']) [] hys g_ig g_out hlk5
  rw [List.append_nil] at heq5
  rw [heq5]
  simp only [bodyLoop]
  refine ⟨s5, rfl, h5out, ?_⟩
  rw [h5fs, hfs4]
  simp [fsSet, joinCRLF, List.append_assoc]

/-- **C3.** In per-entity mode the first kept segment for an entity creates
`<entity>.sql` (suffixed `.gz` under compression) fresh and writes the header
block as its prologue; a later kept segment for the same entity reopens the
file in append mode and writes no header again; hence a table whose schema
segment is followed later by its data segment yields a single file holding
both segments in input order with the header block exactly once at the top. -/
theorem c3_per_entity_append (d t : Str) (hs xs ys : List Str)
    (hhs : ∀ h ∈ hs, startsWith h headerMark = true)
    (hxs : ∀ x ∈ xs, sigLine x = true ∧ isBoundaryLine x = false)
    (hys : ∀ y ∈ ys, sigLine y = true ∧ isBoundaryLine y = false) :
    (∀ (s : State) (f : Str), s.cfg.outfile = [] →
      s.created.contains (fullName s f) = false →
      createOp s f =
        { s with
          created := fullName s f :: s.created,
          fs := fsSet s.fs (fullName s f) (s.headers ++ ['\n']),
          out := some (fullName s f) }) ∧
    (∀ (s : State) (f : Str), s.cfg.outfile = [] →
      s.created.contains (fullName s f) = true →
      createOp s f = { s with out := some (fullName s f) }) ∧
    ∃ sF, runM (dirCfg d) (hs ++ dropLine t :: (xs ++ lockLine t :: ys)) none
        = .ok (sF, none) ∧
      sF.fs = [(joinPath d (t ++ sqlExt),
        joinLF hs ++ '\n' :: (joinCRLF (dropLine t :: xs) ++ joinCRLF (lockLine t :: ys)))] := by
  refine ⟨fun s f h1 h2 => createOp_dir_fresh f h1 h2,
    fun s f h1 h2 => createOp_dir_append f h1 h2, ?_⟩
  simp only [runM]
  rw [headerLoop_run_headers hs (initState (dirCfg d)) (dropLine t) (xs ++ lockLine t :: ys)
    hhs (dropLine_facts t).1 (dropLine_facts t).2.1]
  dsimp only
  obtain ⟨sF, hbp, houtF, hfsF⟩ := bodyPhase_schema_data d t xs ys
    { initState (dirCfg d) with
      count := (initState (dirCfg d)).count + hs.length + 1,
      line := dropLine t,
      skip := true,
      headers := (initState (dirCfg d)).headers ++ joinLF hs }
    hxs hys rfl rfl rfl rfl rfl
  rw [hbp]
  dsimp only
  have hos : sF.out.isSome = true := by rw [houtF]; rfl
  refine ⟨{ sF with out := none }, ?_, ?_⟩
  · simp [hos]
  · rw [show ({ sF with out := none } : State).fs = sF.fs from rfl, hfsF]
    simp [initState]

/-- Witness for C3: a concrete one-table dump with one header line, one
schema body line and one data body line, split into `out/t1.sql`. -/
theorem c3_per_entity_append_witness :
    ∃ sF, runM (dirCfg "out".toList)
        (["/*!h1".toList] ++ dropLine "t1".toList ::
          (["CREATE TABLE x (id int);".toList] ++ lockLine "t1".toList ::
            ["INSERT INTO x VALUES (1);".toList])) none = .ok (sF, none) ∧
      sF.fs = [(joinPath "out".toList ("t1".toList ++ sqlExt),
        joinLF ["/*!h1".toList] ++ '\n' ::
          (joinCRLF (dropLine "t1".toList :: ["CREATE TABLE x (id int);".toList]) ++
            joinCRLF (lockLine "t1".toList :: ["INSERT INTO x VALUES (1);".toList])))] :=
  (c3_per_entity_append "out".toList "t1".toList ["/*!h1".toList]
    ["CREATE TABLE x (id int);".toList] ["INSERT INTO x VALUES (1);".toList]
    (by decide) (by decide) (by decide)).2.2

/-! ## Claim C4: line terminators (corrected) -/

/-- Counterexample to C4 as stated: on a concrete dump with one header line,
the single output file's content contains a bare LF (the header prologue is
written by `fmt.Fprintln` with LF, not CRLF), so not every emitted line is
CRLF-terminated. -/
theorem c4_crlf_counterexample :
    ((runM singleCfg ["/*!h1".toList, "DROP TABLE `t1`;".toList] none).map fun p => p.1.fs)
      = .ok [("out.sql".toList, "/*!h1\n\nDROP TABLE `t1`;\r\n".toList)] ∧
    crlfOnly "/*!h1\n\nDROP TABLE `t1`;\r\n".toList = false :=
  ⟨rfl, rfl⟩

/-- **C4 (amended).** Every line emitted through the line-write operation
`writeLine` is terminated with CRLF regardless of platform; the replicated
header-block prologue, however, is written with bare LF terminators: the
captured header lines joined with LF, followed by one extra LF from
`Fprintln`. -/
theorem c4_crlf_amended (s : State) (f c : Str) :
    (s.out = some f → fsLookup s.fs f = some c →
      ∃ s', writeLineOp s = .ok s' ∧
        fsLookup s'.fs f = some (c ++ s.line ++ ['\r', '\n'])) ∧
    (∀ fn, s.cfg.outfile = [] → s.created.contains (fullName s fn) = false →
      fsLookup (createOp s fn).fs (fullName s fn) = some (s.headers ++ ['\n'])) ∧
    (∀ cfg lines, (headerPhase cfg lines).1.headers
      = joinLF ((lines.filter sigLine).takeWhile (fun l => startsWith l headerMark))) := by
  refine ⟨?_, ?_, ?_⟩
  · intro hout hlk
    refine ⟨_, writeLineOp_some hout, ?_⟩
    rw [hlk]
    simp [fsLookup_fsSet_self]
  · intro fn h1 h2
    rw [createOp_dir_fresh fn h1 h2]
    exact fsLookup_fsSet_self _ _ _
  · intro cfg lines
    have := headerLoop_headers lines (initState cfg)
    simpa [headerPhase, initState] using this

/-- Witness for C4 (amended): a concrete write appends the line with a CRLF
terminator to the open destination. -/
theorem c4_crlf_amended_witness :
    ∃ s', writeLineOp
        { initState singleCfg with
          out := some "f".toList,
          fs := [("f".toList, "x".toList)],
          line := "INSERT;".toList } = .ok s' ∧
      fsLookup s'.fs "f".toList
        = some ("x".toList ++ "INSERT;".toList ++ ['\r', '\n']) :=
  (c4_crlf_amended
    { initState singleCfg with
      out := some "f".toList,
      fs := [("f".toList, "x".toList)],
      line := "INSERT;".toList } "f".toList "x".toList).1
    rfl rfl

/-! ## Claim C6: single-stream mode -/

theorem bodyStep_single_kept (s : State) (l ty t : Str)
    (hc : (List.isEmpty l || startsWith l commentMark) = false)
    (hbc : boundaryCheck s.typ l = (true, ty))
    (he : extractEntity l = some t)
    (hig : ignoreDecision ty t s.cfg = false)
    (hof : s.cfg.outfile ≠ []) :
    (s.out = none →
      bodyStep s l = .ok
        { s with
          line := l,
          typ := ty,
          table := t,
          ignore := false,
          cfg := { s.cfg with outfile := resolvedOutfile s.cfg },
          fs := fsSet s.fs (resolvedOutfile s.cfg) ((s.headers ++ ['\n']) ++ l ++ ['\r', '\n']),
          out := some (resolvedOutfile s.cfg) }) ∧
    (∀ f, s.out = some f →
      bodyStep s l = .ok
        { s with
          line := l,
          typ := ty,
          table := t,
          ignore := false,
          fs := fsSet s.fs f ((fsLookup s.fs f).getD [] ++ l ++ ['\r', '\n']) }) := by
  constructor
  · intro hso
    rw [bodyStep_boundary s hc hbc he]
    simp only [hig, Bool.false_eq_true, if_false]
    have h1 : ({ s with line := l, typ := ty, table := t, ignore := false } : State).cfg.outfile
        ≠ [] := hof
    have h2 : ({ s with line := l, typ := ty, table := t, ignore := false } : State).out
        = none := hso
    rw [createOp_single_open (t ++ sqlExt) h1 h2]
    rw [writeLineOp_some rfl]
    simp [fsSet_fsSet_self, fsLookup_fsSet_self, State.mk.injEq, List.append_assoc]
  · intro f hso
    rw [bodyStep_boundary s hc hbc he]
    simp only [hig, Bool.false_eq_true, if_false]
    have h1 : ({ s with line := l, typ := ty, table := t, ignore := false } : State).cfg.outfile
        ≠ [] := hof
    have h2 : ({ s with line := l, typ := ty, table := t, ignore := false } : State).out.isSome
        = true := by simp [hso]
    rw [createOp_single_noop (t ++ sqlExt) h1 h2]
    rw [writeLineOp_some (show ({ s with line := l, typ := ty, table := t, ignore := false } : State).out = some f from hso)]

theorem bodyStep_single_open_ex (s : State) (l ty t : Str)
    (hc : (List.isEmpty l || startsWith l commentMark) = false)
    (hbc : boundaryCheck s.typ l = (true, ty))
    (he : extractEntity l = some t)
    (hig : ignoreDecision ty t s.cfg = false)
    (hof : s.cfg.outfile ≠ []) (hso : s.out = none) :
    ∃ s2, bodyStep s l = .ok s2 ∧ s2.line = l ∧ s2.typ = ty ∧ s2.table = t ∧
      s2.ignore = false ∧ s2.skip = s.skip ∧ s2.count = s.count ∧ s2.headers = s.headers ∧
      s2.cfg = { s.cfg with outfile := resolvedOutfile s.cfg } ∧ s2.created = s.created ∧
      s2.out = some (resolvedOutfile s.cfg) ∧
      s2.fs = fsSet s.fs (resolvedOutfile s.cfg) ((s.headers ++ ['\n']) ++ l ++ ['\r', '\n']) :=
  ⟨_, (bodyStep_single_kept s l ty t hc hbc he hig hof).1 hso,
    rfl, rfl, rfl, rfl, rfl, rfl, rfl, rfl, rfl, rfl, rfl⟩

theorem bodyStep_single_noop_ex (s : State) (l ty t f : Str)
    (hc : (List.isEmpty l || startsWith l commentMark) = false)
    (hbc : boundaryCheck s.typ l = (true, ty))
    (he : extractEntity l = some t)
    (hig : ignoreDecision ty t s.cfg = false)
    (hof : s.cfg.outfile ≠ []) (hso : s.out = some f) :
    ∃ s2, bodyStep s l = .ok s2 ∧ s2.line = l ∧ s2.typ = ty ∧ s2.table = t ∧
      s2.ignore = false ∧ s2.skip = s.skip ∧ s2.count = s.count ∧ s2.headers = s.headers ∧
      s2.cfg = s.cfg ∧ s2.created = s.created ∧ s2.out = s.out ∧
      s2.fs = fsSet s.fs f ((fsLookup s.fs f).getD [] ++ l ++ ['\r', '\n']) :=
  ⟨_, (bodyStep_single_kept s l ty t hc hbc he hig hof).2 f hso,
    rfl, rfl, rfl, rfl, rfl, rfl, rfl, rfl, rfl, rfl, rfl⟩

theorem joinCRLF_append (a b : List Str) : joinCRLF (a ++ b) = joinCRLF a ++ joinCRLF b := by
  induction a with
  | nil => simp [joinCRLF]
  | cons x xs ih => simp [joinCRLF, ih]

theorem resolvedOutfile_ne_dash (cfg : Cfg) : resolvedOutfile cfg ≠ dashName := by
  by_cases hd : cfg.outfile = dashName
  · rw [resolvedOutfile, if_pos hd]
    decide
  · rw [resolvedOutfile, if_neg hd]
    exact hd

theorem resolvedOutfile_stable (cfg : Cfg) :
    resolvedOutfile { cfg with outfile := resolvedOutfile cfg } = resolvedOutfile cfg := by
  rw [show resolvedOutfile { cfg with outfile := resolvedOutfile cfg }
    = (if resolvedOutfile cfg = dashName then stdoutName else resolvedOutfile cfg) from rfl]
  rw [if_neg (resolvedOutfile_ne_dash cfg)]

theorem kept_insig {l : Str} (cfg : Cfg) (ty tb : Str) (ig : Bool) (rest : List Str)
    (h : (List.isEmpty l || startsWith l commentMark) = true) :
    keptBodyLines cfg ty tb ig (l :: rest) = keptBodyLines cfg ty tb ig rest := by
  simp [keptBodyLines, h]

theorem kept_plain {l : Str} (cfg : Cfg) (ty tb : Str) (ig : Bool) (rest : List Str)
    (hc : (List.isEmpty l || startsWith l commentMark) = false)
    (hb : isBoundaryLine l = false) :
    keptBodyLines cfg ty tb ig (l :: rest)
      = (if ig then [] else [l]) ++ keptBodyLines cfg ty tb ig rest := by
  simp [keptBodyLines, hc, boundaryCheck_not ty hb]

theorem kept_boundary {l : Str} (cfg : Cfg) (ty tb : Str) (ig : Bool) (rest : List Str)
    {ty' t' : Str} (hc : (List.isEmpty l || startsWith l commentMark) = false)
    (hbc : boundaryCheck ty l = (true, ty')) (he : extractEntity l = some t') :
    keptBodyLines cfg ty tb ig (l :: rest)
      = (if ignoreDecision ty' t' cfg then [] else [l])
        ++ keptBodyLines cfg ty' t' (ignoreDecision ty' t' cfg) rest := by
  simp [keptBodyLines, hc, hbc, he]

theorem kept_cfg_outfile (input : List Str) : ∀ (cfg : Cfg) (x ty tb : Str) (ig : Bool),
    keptBodyLines { cfg with outfile := x } ty tb ig input
      = keptBodyLines cfg ty tb ig input := by
  induction input with
  | nil => intro cfg x ty tb ig; rfl
  | cons l rest ih =>
    intro cfg x ty tb ig
    cases hc : (List.isEmpty l || startsWith l commentMark) with
    | true => rw [kept_insig _ _ _ _ _ hc, kept_insig _ _ _ _ _ hc, ih]
    | false =>
      rcases hbc : boundaryCheck ty l with ⟨b, ty'⟩
      cases b with
      | false =>
        have hb : isBoundaryLine l = false := by
          have := boundaryCheck_fst ty l
          rw [hbc] at this
          exact this.symm
        have hbc' : boundaryCheck ty l = (false, ty) := boundaryCheck_not ty hb
        rw [kept_plain _ _ _ _ _ hc hb, kept_plain _ _ _ _ _ hc hb, ih]
      | true =>
        cases he : extractEntity l with
        | none => simp [keptBodyLines, hc, hbc, he]
        | some t' =>
          have hid : ignoreDecision ty' t' { cfg with outfile := x }
              = ignoreDecision ty' t' cfg := rfl
          rw [kept_boundary _ _ _ _ _ hc hbc he, kept_boundary _ _ _ _ _ hc hbc he, hid, ih]

theorem bodyStep_single_inv (s : State) (l : Str) (s' : State)
    (hof : s.cfg.outfile ≠ [])
    (h : bodyStep s l = .ok s') :
    s'.cfg.outfile ≠ [] ∧
    resolvedOutfile s'.cfg = resolvedOutfile s.cfg ∧
    s'.headers = s.headers ∧
    ∃ w, (∀ rest, keptBodyLines s.cfg s.typ s.table s.ignore (l :: rest)
        = w ++ keptBodyLines s'.cfg s'.typ s'.table s'.ignore rest) ∧
      (s.out = none → fsLookup s.fs (resolvedOutfile s.cfg) = none →
        (w = [] ∧ s'.out = none ∧ fsLookup s'.fs (resolvedOutfile s.cfg) = none) ∨
        (s'.out = some (resolvedOutfile s.cfg) ∧
          fsLookup s'.fs (resolvedOutfile s.cfg)
            = some ((s.headers ++ ['\n']) ++ joinCRLF w))) ∧
      (∀ c, s.out = some (resolvedOutfile s.cfg) →
        fsLookup s.fs (resolvedOutfile s.cfg) = some c →
        s'.out = some (resolvedOutfile s.cfg) ∧
        fsLookup s'.fs (resolvedOutfile s.cfg) = some (c ++ joinCRLF w)) := by
  cases hc : (List.isEmpty l || startsWith l commentMark) with
  | true =>
    rw [bodyStep_insig s hc] at h
    simp at h
    subst h
    refine ⟨hof, rfl, rfl, [], ?_, ?_, ?_⟩
    · intro rest
      rw [kept_insig _ _ _ _ _ hc]
      rfl
    · intro h1 h2
      exact .inl ⟨rfl, h1, h2⟩
    · intro c h1 h2
      exact ⟨h1, by simpa [joinCRLF] using h2⟩
  | false =>
    cases hb : isBoundaryLine l with
    | false =>
      rw [bodyStep_plain s hc hb] at h
      cases hig : s.ignore with
      | true =>
        simp [hig] at h
        subst h
        refine ⟨hof, rfl, rfl, [], ?_, ?_, ?_⟩
        · intro rest
          rw [kept_plain _ _ _ _ _ hc hb]
          simp [hig]
        · intro h1 h2
          exact .inl ⟨rfl, h1, h2⟩
        · intro c h1 h2
          exact ⟨h1, by simpa [joinCRLF] using h2⟩
      | false =>
        simp [hig] at h
        obtain ⟨f, hf, rfl⟩ := writeLineOp_ok_shape h
        have hf' : s.out = some f := hf
        refine ⟨hof, rfl, rfl, [l], ?_, ?_, ?_⟩
        · intro rest
          rw [kept_plain _ _ _ _ _ hc hb]
          simp [hig]
        · intro h1 h2
          rw [h1] at hf'
          simp at hf'
        · intro c h1 h2
          have hfr : f = resolvedOutfile s.cfg := by
            rw [h1] at hf'
            exact (Option.some.inj hf').symm
          subst hfr
          refine ⟨h1, ?_⟩
          simp [fsLookup_fsSet_self, h2, joinCRLF, List.append_assoc]
    | true =>
      cases he : extractEntity l with
      | none =>
        rw [bodyStep_panic s hc hb he] at h
        simp at h
      | some t' =>
        rcases hq : boundaryCheck s.typ l with ⟨b, ty'⟩
        have hb' : b = true := by
          have hfst := boundaryCheck_fst s.typ l
          rw [hq, hb] at hfst
          exact hfst
        subst hb'
        cases hig : ignoreDecision ty' t' s.cfg with
        | true =>
          rw [bodyStep_boundary s hc hq he] at h
          simp [hig] at h
          subst h
          refine ⟨hof, rfl, rfl, [], ?_, ?_, ?_⟩
          · intro rest
            rw [kept_boundary _ _ _ _ _ hc hq he]
            simp [hig]
          · intro h1 h2
            exact .inl ⟨rfl, h1, h2⟩
          · intro c h1 h2
            exact ⟨h1, by simpa [joinCRLF] using h2⟩
        | false =>
          cases hso : s.out with
          | none =>
            obtain ⟨s2, hstep, e_line, e_typ, e_tbl, e_ig, e_skip, e_cnt, e_hd, e_cfg,
              e_cr, e_out, e_fs⟩ := bodyStep_single_open_ex s l ty' t' hc hq he hig hof hso
            rw [hstep] at h
            simp at h
            subst h
            refine ⟨?_, ?_, e_hd, [l], ?_, ?_, ?_⟩
            · intro hh
              rw [e_cfg] at hh
              exact hof ((resolvedOutfile_nil s.cfg).1 hh)
            · rw [e_cfg, resolvedOutfile_stable]
            · intro rest
              rw [kept_boundary _ _ _ _ _ hc hq he, e_typ, e_tbl, e_ig]
              have hkc : keptBodyLines s2.cfg ty' t' false rest
                  = keptBodyLines s.cfg ty' t' false rest := by
                rw [e_cfg]
                exact kept_cfg_outfile rest s.cfg (resolvedOutfile s.cfg) ty' t' false
              rw [hkc]
              simp [hig]
            · intro h1 h2
              right
              refine ⟨e_out, ?_⟩
              rw [e_fs]
              simp [fsLookup_fsSet_self, joinCRLF, List.append_assoc]
            · intro c h1 h2
              simp at h1
          | some f =>
            obtain ⟨s2, hstep, e_line, e_typ, e_tbl, e_ig, e_skip, e_cnt, e_hd, e_cfg,
              e_cr, e_out, e_fs⟩ := bodyStep_single_noop_ex s l ty' t' f hc hq he hig hof hso
            rw [hstep] at h
            simp at h
            subst h
            refine ⟨by rw [e_cfg]; exact hof, by rw [e_cfg], e_hd, [l], ?_, ?_, ?_⟩
            · intro rest
              rw [kept_boundary _ _ _ _ _ hc hq he, e_typ, e_tbl, e_ig, e_cfg]
              simp [hig]
            · intro h1 h2
              simp at h1
            · intro c h1 h2
              have hfr : f = resolvedOutfile s.cfg := Option.some.inj h1
              subst hfr
              refine ⟨by rw [e_out]; exact hso, ?_⟩
              rw [e_fs]
              simp [fsLookup_fsSet_self, h2, joinCRLF, List.append_assoc]

theorem bodyLoop_single (input : List Str) : ∀ (s s' : State),
    s.cfg.outfile ≠ [] →
    bodyLoop s input = .ok s' →
    s'.cfg.outfile ≠ [] ∧
    resolvedOutfile s'.cfg = resolvedOutfile s.cfg ∧
    s'.headers = s.headers ∧
    ((s.out = none → fsLookup s.fs (resolvedOutfile s.cfg) = none →
      (keptBodyLines s.cfg s.typ s.table s.ignore input = [] ∧ s'.out = none ∧
        fsLookup s'.fs (resolvedOutfile s.cfg) = none) ∨
      (s'.out = some (resolvedOutfile s.cfg) ∧
        fsLookup s'.fs (resolvedOutfile s.cfg)
          = some ((s.headers ++ ['\n'])
              ++ joinCRLF (keptBodyLines s.cfg s.typ s.table s.ignore input)))) ∧
     (∀ c, s.out = some (resolvedOutfile s.cfg) →
       fsLookup s.fs (resolvedOutfile s.cfg) = some c →
       s'.out = some (resolvedOutfile s.cfg) ∧
       fsLookup s'.fs (resolvedOutfile s.cfg)
         = some (c ++ joinCRLF (keptBodyLines s.cfg s.typ s.table s.ignore input)))) := by
  induction input with
  | nil =>
    intro s s' hof h
    simp [bodyLoop] at h
    subst h
    refine ⟨hof, rfl, rfl, ?_, ?_⟩
    · intro h1 h2
      exact .inl ⟨rfl, h1, h2⟩
    · intro c h1 h2
      exact ⟨h1, by simpa [keptBodyLines, joinCRLF] using h2⟩
  | cons l rest ih =>
    intro s s' hof h
    simp only [bodyLoop] at h
    cases hstep : bodyStep { s with count := s.count + 1 } l with
    | error e => rw [hstep] at h; simp at h
    | ok s1 =>
      rw [hstep] at h
      simp at h
      have hof1 : ({ s with count := s.count + 1 } : State).cfg.outfile ≠ [] := hof
      obtain ⟨q1, q2, q3, w, hw, hA, hB⟩ := bodyStep_single_inv _ l s1 hof1 hstep
      have q2' : resolvedOutfile s1.cfg = resolvedOutfile s.cfg := q2
      have q3' : s1.headers = s.headers := q3
      have hw' : ∀ r, keptBodyLines s.cfg s.typ s.table s.ignore (l :: r)
          = w ++ keptBodyLines s1.cfg s1.typ s1.table s1.ignore r := hw
      obtain ⟨p1, p2, p3, pA, pB⟩ := ih s1 s' q1 h
      rw [q2'] at p2 pA pB
      rw [q3'] at p3 pA
      refine ⟨p1, p2, p3, ?_, ?_⟩
      · intro h1 h2
        rw [hw' rest, joinCRLF_append]
        have hA' := hA (show ({ s with count := s.count + 1 } : State).out = none from h1)
          (show fsLookup ({ s with count := s.count + 1 } : State).fs
            (resolvedOutfile ({ s with count := s.count + 1 } : State).cfg) = none from h2)
        rcases hA' with ⟨hw0, hout1, hlk1⟩ | ⟨hout1, hlk1⟩
        · have hlk1' : fsLookup s1.fs (resolvedOutfile s.cfg) = none := hlk1
          rcases pA hout1 hlk1' with ⟨hk0, hout2, hlk2⟩ | ⟨hout2, hlk2⟩
          · refine .inl ⟨?_, hout2, hlk2⟩
            rw [hw0, hk0]
            rfl
          · right
            refine ⟨hout2, ?_⟩
            rw [hlk2, hw0]
            simp [joinCRLF]
        · have hout1' : s1.out = some (resolvedOutfile s.cfg) := hout1
          have hlk1' : fsLookup s1.fs (resolvedOutfile s.cfg)
              = some ((s.headers ++ ['\n']) ++ joinCRLF w) := hlk1
          have hp := pB _ hout1' hlk1'
          right
          refine ⟨hp.1, ?_⟩
          rw [hp.2]
          simp [List.append_assoc]
      · intro c h1 h2
        rw [hw' rest, joinCRLF_append]
        have hb1 := hB c (show ({ s with count := s.count + 1 } : State).out
            = some (resolvedOutfile ({ s with count := s.count + 1 } : State).cfg) from h1)
          (show fsLookup ({ s with count := s.count + 1 } : State).fs
            (resolvedOutfile ({ s with count := s.count + 1 } : State).cfg) = some c from h2)
        have hout1' : s1.out = some (resolvedOutfile s.cfg) := hb1.1
        have hlk1' : fsLookup s1.fs (resolvedOutfile s.cfg) = some (c ++ joinCRLF w) := hb1.2
        have hp := pB _ hout1' hlk1'
        refine ⟨hp.1, ?_⟩
        rw [hp.2]
        simp [List.append_assoc]

theorem bodyPhase_single {s : State} {input : List Str} {s2 : State}
    (hof : s.cfg.outfile ≠ [])
    (hout : s.out = none)
    (hfs : fsLookup s.fs (resolvedOutfile s.cfg) = none)
    (h : bodyPhase s input = .ok s2) :
    s2.headers = s.headers ∧
    ((keptBodyLines s.cfg s.typ s.table s.ignore
        ((if s.skip then [s.line] else []) ++ input) = [] ∧ s2.out = none ∧
      fsLookup s2.fs (resolvedOutfile s.cfg) = none) ∨
    (s2.out = some (resolvedOutfile s.cfg) ∧
      fsLookup s2.fs (resolvedOutfile s.cfg)
        = some ((s.headers ++ ['\n'])
            ++ joinCRLF (keptBodyLines s.cfg s.typ s.table s.ignore
                ((if s.skip then [s.line] else []) ++ input))))) := by
  unfold bodyPhase at h
  by_cases hsk : s.skip = true
  · simp only [hsk, if_true] at h
    revert h
    cases hstep : bodyStep { s with skip := false } s.line with
    | error e => intro h; simp at h
    | ok s1 =>
      intro h
      simp at h
      obtain ⟨q1, q2, q3, w, hw, hA, hB⟩ :=
        bodyStep_single_inv { s with skip := false } s.line s1 hof hstep
      have q2' : resolvedOutfile s1.cfg = resolvedOutfile s.cfg := q2
      have q3' : s1.headers = s.headers := q3
      have hw' : ∀ r, keptBodyLines s.cfg s.typ s.table s.ignore (s.line :: r)
          = w ++ keptBodyLines s1.cfg s1.typ s1.table s1.ignore r := hw
      obtain ⟨p1, p2, p3, pA, pB⟩ := bodyLoop_single input s1 s2 q1 h
      rw [q2'] at p2 pA pB
      rw [q3'] at p3 pA
      simp only [hsk, if_true, List.singleton_append]
      refine ⟨p3, ?_⟩
      rw [hw' input, joinCRLF_append]
      have hA' := hA (show ({ s with skip := false } : State).out = none from hout)
        (show fsLookup ({ s with skip := false } : State).fs
          (resolvedOutfile ({ s with skip := false } : State).cfg) = none from hfs)
      rcases hA' with ⟨hw0, hout1, hlk1⟩ | ⟨hout1, hlk1⟩
      · have hlk1' : fsLookup s1.fs (resolvedOutfile s.cfg) = none := hlk1
        rcases pA hout1 hlk1' with ⟨hk0, hout2, hlk2⟩ | ⟨hout2, hlk2⟩
        · refine .inl ⟨?_, hout2, hlk2⟩
          rw [hw0, hk0]
          rfl
        · right
          refine ⟨hout2, ?_⟩
          rw [hlk2, hw0]
          simp [joinCRLF]
      · have hout1' : s1.out = some (resolvedOutfile s.cfg) := hout1
        have hlk1' : fsLookup s1.fs (resolvedOutfile s.cfg)
            = some ((s.headers ++ ['\n']) ++ joinCRLF w) := hlk1
        have hp := pB _ hout1' hlk1'
        right
        refine ⟨hp.1, ?_⟩
        rw [hp.2]
        simp [List.append_assoc]
  · simp only [Bool.not_eq_true] at hsk
    simp only [hsk, Bool.false_eq_true, if_false] at h
    obtain ⟨p1, p2, p3, pA, pB⟩ := bodyLoop_single input s s2 hof h
    simp only [hsk, Bool.false_eq_true, if_false, List.nil_append]
    rcases pA hout hfs with ⟨hk, ho, hl⟩ | ⟨ho, hl⟩
    · exact ⟨p3, .inl ⟨hk, ho, hl⟩⟩
    · exact ⟨p3, .inr ⟨ho, hl⟩⟩

/-- **C6.** In single-stream mode (`outfile` set), the output stream is
opened exactly once across the run: `create` is an idempotent no-op whenever
a stream is already open, and on any successful run the single destination
either was never opened (no kept body line existed) or holds exactly the
captured header block as its first content followed by every kept body line,
in original input order, regardless of which entity each line belongs to. -/
theorem c6_single_stream (cfg : Cfg) (lines : List Str)
    (p : State × Option (Nat × ReadErr))
    (hof : cfg.outfile ≠ [])
    (h : runM cfg lines none = .ok p) :
    (∀ (s : State) (f : Str), s.cfg.outfile ≠ [] → s.out.isSome = true → createOp s f = s) ∧
    ((keptBodyLines cfg [] [] false (bodyFeed cfg lines) = [] ∧
        fsLookup p.1.fs (resolvedOutfile cfg) = none) ∨
      fsLookup p.1.fs (resolvedOutfile cfg)
        = some (((headerPhase cfg lines).1.headers ++ ['\n'])
            ++ joinCRLF (keptBodyLines cfg [] [] false (bodyFeed cfg lines)))) := by
  refine ⟨fun s f h1 h2 => createOp_single_noop f h1 h2, ?_⟩
  obtain ⟨s2, hbp, hp⟩ := runM_ok_shape h
  obtain ⟨hc, hcr, hfs0, hout0, htb, hig, hty⟩ := headerLoop_inv lines (initState cfg)
  have hc' : (headerLoop (initState cfg) lines).1.cfg = cfg := hc
  have hty' : (headerLoop (initState cfg) lines).1.typ = ([] : Str) := hty
  have htb' : (headerLoop (initState cfg) lines).1.table = ([] : Str) := htb
  have hig' : (headerLoop (initState cfg) lines).1.ignore = false := hig
  have hout' : (headerLoop (initState cfg) lines).1.out = none := hout0
  have hfs' : (headerLoop (initState cfg) lines).1.fs = [] := hfs0
  obtain ⟨hhd, hfinal⟩ := bodyPhase_single
    (show (headerLoop (initState cfg) lines).1.cfg.outfile ≠ [] from by rw [hc']; exact hof)
    hout'
    (show fsLookup (headerLoop (initState cfg) lines).1.fs
        (resolvedOutfile (headerLoop (initState cfg) lines).1.cfg) = none from by
      rw [hfs']; rfl)
    hbp
  rw [hc', hty', htb', hig'] at hfinal
  have hpf : p.1.fs = s2.fs := by
    rw [hp]
    cases hos : s2.out.isSome <;> simp [hos]
  rw [hpf]
  rcases hfinal with ⟨hk, ho2, hl2⟩ | ⟨ho2, hl2⟩
  · exact .inl ⟨hk, hl2⟩
  · exact .inr hl2

/-- Witness for C6: a dump with one header line, one schema boundary for
entity `a` and one body line, split in single-stream mode. -/
theorem c6_single_stream_witness :
    ∃ p, runM singleCfg ["/*!h".toList, dropLine "a".toList, "x;".toList] none = .ok p ∧
      ((∀ (s : State) (f : Str), s.cfg.outfile ≠ [] → s.out.isSome = true → createOp s f = s) ∧
        ((keptBodyLines singleCfg [] [] false
            (bodyFeed singleCfg ["/*!h".toList, dropLine "a".toList, "x;".toList]) = [] ∧
          fsLookup p.1.fs (resolvedOutfile singleCfg) = none) ∨
        fsLookup p.1.fs (resolvedOutfile singleCfg)
          = some (((headerPhase singleCfg
                  ["/*!h".toList, dropLine "a".toList, "x;".toList]).1.headers ++ ['\n'])
              ++ joinCRLF (keptBodyLines singleCfg [] [] false
                  (bodyFeed singleCfg
                    ["/*!h".toList, dropLine "a".toList, "x;".toList]))))) := by
  exact ⟨_, rfl, c6_single_stream singleCfg _ _ (by decide) rfl⟩
